import Mathlib

/-!
Verification development for the Gigamon "show diag" parser
(src/gigamon_parser.py).  The Python program is shallowly embedded:

* a document is the list of its physical lines, each a `List Char`
  without the trailing newline (the trailing-newline handling of the
  alias regex is folded into `aliasMatch`, see its comment);
* Python dicts keyed by port identifier are association lists in
  insertion order (`PortMap`) — insertion order matters because the
  final sort is stable; the alias dict is observed only through
  `dict.get`, so it is modelled as a function `Str → Option Str`;
* the fallible dict accesses of step 2 (`port_data[current_ports[i]]`,
  a potential `KeyError`) are modelled in the `Except Unit` monad; the
  `error` outcome is proved unreachable;
* machine floats are modelled as exact rationals (`ℚ`): Python
  `float()` on a plain decimal literal, and the arithmetic of
  `calc_util`, are exact in the cases the claims quantify over;
  IEEE rounding and the special values inf/nan are out of scope;
* character classes of the regexes (`\s`, `\d`, `[a-z0-9]`,
  `str.isdigit`, case conversion) are modelled at ASCII scope.
-/

namespace Gigamon

/-- Character strings, modelled as lists of characters. -/
abbrev Str := List Char

/-- Python regex `\s` / `str.strip` whitespace (ASCII scope):
space, tab, newline, carriage return, vertical tab, form feed. -/
def isSpace (c : Char) : Bool :=
  c == ' ' || c == '\t' || c == '\n' || c == '\r' || c == '\x0b' || c == '\x0c'

/-- Python `str.strip()`: drop whitespace from both ends. -/
def pyStrip (s : Str) : Str :=
  ((s.dropWhile isSpace).reverse.dropWhile isSpace).reverse

/-- Python `str.lower()` (ASCII scope). -/
def pyLower (s : Str) : Str := s.map Char.toLower

/-- Python `str.capitalize()` (ASCII scope): first character
upper-cased, all remaining characters lower-cased. -/
def pyCapitalize : Str → Str
  | [] => []
  | c :: cs => Char.toUpper c :: cs.map Char.toLower

/-- One step of `replaceAll`, with fuel bounded by the text length
(structural recursion so that concrete instances reduce in the kernel). -/
def replaceGo (pat repl : Str) : Nat → Str → Str
  | _, [] => []
  | 0, text => text
  | fuel + 1, c :: cs =>
    if pat ≠ [] ∧ pat.isPrefixOf (c :: cs) then
      repl ++ replaceGo pat repl fuel (cs.drop (pat.length - 1))
    else
      c :: replaceGo pat repl fuel cs

/-- Python `str.replace(pat, repl)`: replace every non-overlapping
occurrence of `pat`, scanning left to right.  (The program never calls
`replace` with an empty pattern.) -/
def replaceAll (text pat repl : Str) : Str := replaceGo pat repl text.length text

/-- Python `pat in text`: substring containment. -/
def containsSub (pat : Str) : Str → Bool
  | [] => pat.isEmpty
  | c :: cs => pat.isPrefixOf (c :: cs) || containsSub pat cs

/-- Model of `re.split(r'\s{2,}', s)`: split on maximal runs of two or more
whitespace characters; a single whitespace character stays inside its
token.  `pend` is the whitespace run read so far (reversed), `acc` the
current token (reversed). -/
def splitWs2Go : Str → Str → Str → List Str
  | [], pend, acc =>
    if 2 ≤ pend.length then [acc.reverse, []] else [(pend ++ acc).reverse]
  | c :: cs, pend, acc =>
    if isSpace c then splitWs2Go cs (c :: pend) acc
    else if 2 ≤ pend.length then acc.reverse :: splitWs2Go cs [] [c]
    else splitWs2Go cs [] (c :: (pend ++ acc))

/-- Model of `re.split(r'\s{2,}', s)`. -/
def splitWs2 (s : Str) : List Str := splitWs2Go s [] []

/-- Match a literal and return the rest of the input. -/
def expectLit (lit s : Str) : Option Str :=
  if lit.isPrefixOf s then some (s.drop lit.length) else none

/-- Match one-or-more characters of a class (a greedy `X+` whose
follower is disjoint from the class, so no backtracking is needed). -/
def takeWhile1 (p : Char → Bool) (s : Str) : Option (Str × Str) :=
  match s.takeWhile p with
  | [] => none
  | t => some (t, s.dropWhile p)

/-- Regex class `[a-z0-9]` (ASCII). -/
def isLowerDigit (c : Char) : Bool := c.isLower || c.isDigit

/-- Model of `re.match(r'^\s*port\s+([0-9]+/[0-9]+/[a-z0-9]+)\s+alias\s+(.+)', line)`
on a physical line (newline removed), returning the port identifier and
the already-processed alias `group(2).strip().replace('"', '')`.

Every adjacent pair of tokens up to the literal `alias` has disjoint
character classes, so greedy matching is deterministic there.  After
`alias`, `\s+(.+)` matches iff at least one whitespace character and at
least one further character follow (`(.+)` excludes the newline that
`readlines` leaves at the end of the line, which is why the tail must
have two characters *before* that newline); whichever split greedy
backtracking settles on, `group(2).strip()` equals the stripped tail, so
the model computes that directly. -/
def aliasMatch (line : Str) : Option (Str × Str) := do
  let s0 := line.dropWhile isSpace
  let s1 ← expectLit "port".toList s0
  let (_, s2) ← takeWhile1 isSpace s1
  let (d1, s3) ← takeWhile1 Char.isDigit s2
  let s4 ← expectLit "/".toList s3
  let (d2, s5) ← takeWhile1 Char.isDigit s4
  let s6 ← expectLit "/".toList s5
  let (d3, s7) ← takeWhile1 isLowerDigit s6
  let (_, s8) ← takeWhile1 isSpace s7
  let s9 ← expectLit "alias".toList s8
  match s9 with
  | c1 :: _ :: _ =>
    if isSpace c1 then
      some (d1 ++ '/' :: (d2 ++ '/' :: d3), replaceAll (pyStrip s9) ['"'] [])
    else none
  | _ => none

/-- Model of `re.match(r'^\s*Parameter\s+(1/\d+/\S+.*)', line)` on the stripped
line, returning `group(1)`.  Because `.*` is unconstrained and greedy,
`group(1)` is everything from the `1/` to the end of the line. -/
def headerMatch (s : Str) : Option Str := do
  let s0 := s.dropWhile isSpace
  let s1 ← expectLit "Parameter".toList s0
  let (_, s2) ← takeWhile1 isSpace s1
  let s3 ← expectLit "1/".toList s2
  let (_, s4) ← takeWhile1 Char.isDigit s3
  let s5 ← expectLit "/".toList s4
  let _ ← takeWhile1 (fun c => !isSpace c) s5
  pure s2

/-- Model of `re.match(r'^\s*Counter Name\s+(.*)', line)` on the stripped line,
returning `group(1)` (the rest after the maximal whitespace run). -/
def statsHeaderMatch (s : Str) : Option Str := do
  let s0 := s.dropWhile isSpace
  let s1 ← expectLit "Counter Name".toList s0
  let (_, s2) ← takeWhile1 isSpace s1
  pure s2

/-- Model of `line.startswith("=")`. -/
def startsEq : Str → Bool
  | [] => false
  | c :: _ => c == '='

/-- One per-port record of the `port_data` dict. -/
structure PortInfo where
  ptype : Str
  admin : Str
  speed : Str
  sfp : Str
  media : Str
  rxRate : Str
  txRate : Str
deriving DecidableEq

/-- The defaults a port receives when first seen in a parameter-block
header (gigamon_parser.py lines 55-63). -/
def defaultPortInfo : PortInfo :=
  { ptype := "N/A".toList, admin := "N/A".toList, speed := "N/A".toList,
    sfp := "N/A".toList, media := "N/A".toList,
    rxRate := "0".toList, txRate := "0".toList }

/-- The `port_data` dict: an association list in insertion order. -/
abbrev PortMap := List (Str × PortInfo)

/-- Association-list lookup (first match), the observable behaviour of
a Python dict read. -/
def alookup {α : Type} : List (Str × α) → Str → Option α
  | [], _ => none
  | (a, b) :: rest, k => if a = k then some b else alookup rest k

/-- Membership test `k in port_data`. -/
def pmContains (pd : PortMap) (k : Str) : Bool := pd.any (fun e => e.1 == k)

/-- In-place mutation of the record stored under an existing key. -/
def pmUpdateT (pd : PortMap) (k : Str) (f : PortInfo → PortInfo) : PortMap :=
  pd.map (fun e => if e.1 = k then (e.1, f e.2) else e)

/-- Access `port_data[k]` followed by a field mutation: raises `KeyError`
(modelled as `Except.error`) when the key is absent. -/
def pmUpdate (pd : PortMap) (k : Str) (f : PortInfo → PortInfo) :
    Except Unit PortMap :=
  if pmContains pd k then Except.ok (pmUpdateT pd k f) else Except.error ()

/-- Header processing: `for p in current_ports: if p not in port_data:
port_data[p] = {defaults}` (lines 53-63). -/
def insertNew (pd : PortMap) (ports : List Str) : PortMap :=
  ports.foldl (fun m p => if pmContains m p then m else m ++ [(p, defaultPortInfo)]) pd

/-- Loop `for i, val in enumerate(values): if i < len(current_ports):
port_data[current_ports[i]] = upd val` — values beyond the port-column
count are discarded, missing values leave ports untouched. -/
def setVals (upd : Str → PortInfo → PortInfo) :
    List Str → List Str → PortMap → Except Unit PortMap
  | _, [], pd => Except.ok pd
  | [], _ :: _, pd => Except.ok pd
  | p :: ps, v :: vs, pd => do
    let pd' ← pmUpdate pd p (upd v)
    setVals upd ps vs pd'

/-- Speed normalization of the `Speed (Mbps)` row (lines 86-91). -/
def normalizeSpeed (val : Str) : Str :=
  if val = "1000".toList then "1Gb".toList
  else if val = "10000".toList then "10Gb".toList
  else if val = "40000".toList then "40Gb".toList
  else if val = "100000".toList then "100Gb".toList
  else val

/-- Media classification of the `SFP type` row (lines 96-102).  The
local `media = "Unknown"` default of the source is dead: every branch
of the chain below overwrites it, the final `else` storing the raw
value itself. -/
def classifyMedia (val : Str) : Str :=
  let vl := pyLower val
  if containsSub "cu".toList vl || containsSub "copper".toList vl then
    "Copper".toList
  else if ["sx".toList, "lx".toList, "sr".toList, "lr".toList, "er".toList,
      "zr".toList].any (fun x => containsSub x vl) then
    "Fiber".toList
  else if containsSub "qsfp".toList vl then
    "Fiber (QSFP)".toList
  else if ["none".toList, "n/a".toList, "(unsupported)".toList].any
      (fun x => vl == x) then
    "No Module".toList
  else val

/-- Label cleanup `parts[0].replace(":", "").strip()`. -/
def stripLabel (t : Str) : Str := pyStrip (replaceAll t [':'] [])

/-- State of the inventory-block scan (step 2): the active port-column
list and the `port_data` dict. -/
structure InvState where
  currentPorts : List Str
  portData : PortMap
deriving DecidableEq

/-- One line of the inventory-block scan (lines 47-103). -/
def processInvLine (st : InvState) (raw : Str) : Except Unit InvState :=
  let line := pyStrip raw
  match headerMatch line with
  | some g =>
    let ports := splitWs2 g
    Except.ok { currentPorts := ports, portData := insertNew st.portData ports }
  | none =>
    if startsEq line || st.currentPorts.isEmpty then Except.ok st
    else
      match splitWs2 line with
      | l0 :: v :: vs =>
        let label := stripLabel l0
        if label = "Type".toList then
          (setVals (fun val r => { r with ptype := val })
            st.currentPorts (v :: vs) st.portData).map
            (fun pd => { st with portData := pd })
        else if label = "Admin".toList then
          (setVals (fun val r => { r with admin := val })
            st.currentPorts (v :: vs) st.portData).map
            (fun pd => { st with portData := pd })
        else if label = "Speed (Mbps)".toList then
          (setVals (fun val r => { r with speed := normalizeSpeed val })
            st.currentPorts (v :: vs) st.portData).map
            (fun pd => { st with portData := pd })
        else if label = "SFP type".toList then
          (setVals (fun val r => { r with sfp := val, media := classifyMedia val })
            st.currentPorts (v :: vs) st.portData).map
            (fun pd => { st with portData := pd })
        else Except.ok st
      | _ => Except.ok st

/-- Step 2 over the whole document, starting from no active columns and
an empty dict. -/
def parseInv (doc : List Str) : Except Unit InvState :=
  doc.foldlM processInvLine { currentPorts := [], portData := [] }

/-- Statistics update (lines 129-140): set a rate field, but only for a
port already present in `port_data` — never creates a record. -/
def setStatsVals (upd : Str → PortInfo → PortInfo) :
    List Str → List Str → PortMap → PortMap
  | _, [], pd => pd
  | [], _ :: _, pd => pd
  | p :: ps, v :: vs, pd =>
    setStatsVals upd ps vs (if pmContains pd p then pmUpdateT pd p (upd v) else pd)

/-- State of the statistics-block scan (step 2.5). -/
structure StatState where
  currentStatsPorts : List Str
  portData : PortMap
deriving DecidableEq

/-- One line of the statistics-block scan (lines 109-140). -/
def processStatsLine (st : StatState) (raw : Str) : StatState :=
  let line := pyStrip raw
  match statsHeaderMatch line with
  | some g =>
    { currentStatsPorts :=
        (splitWs2 g).map (fun t => pyStrip (replaceAll t "Port:".toList [])),
      portData := st.portData }
  | none =>
    if startsEq line || st.currentStatsPorts.isEmpty then st
    else
      match splitWs2 line with
      | l0 :: v :: vs =>
        let label := stripLabel l0
        if label = "IfInOctetsPerSec".toList then
          { st with portData := (setStatsVals (fun val r => { r with rxRate := val })
              st.currentStatsPorts (v :: vs) st.portData) }
        else if label = "IfOutOctetsPerSec".toList then
          { st with portData := (setStatsVals (fun val r => { r with txRate := val })
              st.currentStatsPorts (v :: vs) st.portData) }
        else st
      | _ => st

/-- Step 2.5 over the whole document. -/
def parseStats (pd : PortMap) (doc : List Str) : PortMap :=
  (doc.foldl processStatsLine { currentStatsPorts := [], portData := pd }).portData

/-- State of the alias scan (step 1).  The alias dict is observed only
through `.get`, so it is modelled as a lookup function. -/
structure AliasState where
  inRC : Bool
  aliases : Str → Option Str

/-- One line of the alias scan (lines 32-41): the flag is set (and never
reset) by a line containing the marker, and the very same line is then
also tested against the alias pattern. -/
def processAliasLine (st : AliasState) (line : Str) : AliasState :=
  let inRC := st.inRC || containsSub "Running Configuration".toList line
  if inRC then
    match aliasMatch line with
    | some pa =>
      { inRC := inRC,
        aliases := fun q => (if q = pa.1 then some pa.2 else st.aliases q) }
    | none => { inRC := inRC, aliases := st.aliases }
  else { inRC := inRC, aliases := st.aliases }

/-- Step 1 over the whole document. -/
def parseAliases (doc : List Str) : Str → Option Str :=
  (doc.foldl processAliasLine { inRC := false, aliases := fun _ => none }).aliases

/-- The three extraction stages run over the same document.  Only the
step-2 dict accesses can fail; the `error` outcome is proved
unreachable (claim about exception safety). -/
def parseAll (doc : List Str) : Except Unit ((Str → Option Str) × PortMap) :=
  (parseInv doc).map (fun st => (parseAliases doc, parseStats st.portData doc))

/-- The parsed `port_data` of a document.  The `error` fallback is dead
code: `parseAll` is proved to always return `ok`. -/
def portDataOf (doc : List Str) : PortMap :=
  match parseAll doc with
  | Except.ok r => r.2
  | Except.error _ => []

/-- The parsed alias table of a document. -/
def aliasesOf (doc : List Str) : Str → Option Str := parseAliases doc

/-- Value of a run of ASCII digits, as `int()` computes it. -/
def digitsToNat (ds : Str) : Nat := ds.foldl (fun n c => n * 10 + (c.toNat - 48)) 0

/-- Exponent suffix of a float literal: empty, or `e`/`E`, an optional
sign and a digit run ending the string; the scale factor it denotes. -/
def parseExp : Str → Option ℚ
  | [] => some 1
  | c :: r =>
    if c == 'e' || c == 'E' then
      let sr : Bool × Str :=
        match r with
        | [] => (false, [])
        | c2 :: rr =>
          if c2 == '+' then (false, rr)
          else if c2 == '-' then (true, rr)
          else (false, c2 :: rr)
      let ds := sr.2.takeWhile Char.isDigit
      let rest := sr.2.dropWhile Char.isDigit
      if ds.isEmpty || !rest.isEmpty then none
      else some (if sr.1 then (1 : ℚ) / 10 ^ digitsToNat ds else (10 : ℚ) ^ digitsToNat ds)
    else none

/-- Python `float(s)` on plain decimal literals (optional surrounding
whitespace, optional sign, digits with an optional fractional part, at
least one digit overall, optional exponent), returning the exact
rational value; `none` models the `ValueError` of a non-numeric string.
Specials (`inf`, `nan`, underscore separators) and IEEE rounding are
outside the modelled scope. -/
def parseFloat (s : Str) : Option ℚ :=
  let t := pyStrip s
  let st : ℚ × Str :=
    match t with
    | [] => (1, [])
    | c :: r =>
      if c == '+' then (1, r)
      else if c == '-' then (-1, r)
      else (1, c :: r)
  let ip := st.2.takeWhile Char.isDigit
  let r1 := st.2.dropWhile Char.isDigit
  match r1 with
  | '.' :: r2 =>
    let fp := r2.takeWhile Char.isDigit
    let r3 := r2.dropWhile Char.isDigit
    if ip.isEmpty && fp.isEmpty then none
    else
      (parseExp r3).map (fun e =>
        st.1 * ((digitsToNat ip : ℚ) + (digitsToNat fp : ℚ) / 10 ^ fp.length) * e)
  | r2 =>
    if ip.isEmpty then none
    else (parseExp r2).map (fun e => st.1 * (digitsToNat ip : ℚ) * e)

/-- Function `calc_util` (lines 144-163): utilization percent from a rate string
(bytes per second) and the stored speed string.  A non-numeric rate
(`ValueError`) and an unrecognized speed both yield `0.0`; the dead
`speed_bps == 0` guard of the source is omitted as each branch divides
by its own nonzero constant.  Floats are modelled as exact rationals. -/
def calc_util (rate_str speed_str : Str) : ℚ :=
  match parseFloat rate_str with
  | none => 0
  | some rate =>
    if speed_str = "N/A".toList ∨ speed_str = "Unknown".toList ∨ speed_str = "-".toList then 0
    else if containsSub "100Gb".toList speed_str then rate * 8 * 100 / 100000000000
    else if containsSub "40Gb".toList speed_str then rate * 8 * 100 / 40000000000
    else if containsSub "10Gb".toList speed_str then rate * 8 * 100 / 10000000000
    else if containsSub "1Gb".toList speed_str then rate * 8 * 100 / 1000000000
    else if containsSub "100Mb".toList speed_str then rate * 8 * 100 / 100000000
    else 0

/-- One element of a natural sort key: a non-digit run or the numeric
value of a digit run. -/
inductive NKey where
  | s : Str → NKey
  | n : Nat → NKey
deriving DecidableEq

/-- Scanner behind `natural_keys`, producing the alternating pieces of
`re.split(r'(\d+)', text)` with digit runs converted by `int`.  The
state is the pending non-digit run (reversed) or the value of the
pending digit run. -/
def nkGo : Str → Sum Str Nat → List NKey
  | [], Sum.inl acc => [NKey.s acc.reverse]
  | [], Sum.inr v => [NKey.n v, NKey.s []]
  | c :: cs, Sum.inl acc =>
    if c.isDigit then NKey.s acc.reverse :: nkGo cs (Sum.inr (c.toNat - 48))
    else nkGo cs (Sum.inl (c :: acc))
  | c :: cs, Sum.inr v =>
    if c.isDigit then nkGo cs (Sum.inr (v * 10 + (c.toNat - 48)))
    else NKey.n v :: nkGo cs (Sum.inl [c])

/-- Function `natural_keys` (lines 165-166): the list always alternates
non-digit runs (even positions, possibly empty) and digit-run values
(odd positions), so comparing two keys never faces mixed types at the
same position. -/
def natural_keys (text : Str) : List NKey := nkGo text (Sum.inl [])

/-- Three-way comparison of naturals. -/
def cmpN (a b : Nat) : Ordering :=
  if a < b then Ordering.lt else if b < a then Ordering.gt else Ordering.eq

/-- Python `<` on characters compares code points. -/
def cmpChar (a b : Char) : Ordering := cmpN a.toNat b.toNat

/-- Lexicographic comparison of lists from an element comparison, the
semantics of Python list/str comparison. -/
def cmpLex (cmpE : α → α → Ordering) : List α → List α → Ordering
  | [], [] => Ordering.eq
  | [], _ :: _ => Ordering.lt
  | _ :: _, [] => Ordering.gt
  | a :: as, b :: bs =>
    match cmpE a b with
    | Ordering.eq => cmpLex cmpE as bs
    | o => o

/-- Python string comparison. -/
def cmpStr (a b : Str) : Ordering := cmpLex cmpChar a b

/-- Comparison of key elements.  On keys produced by `natural_keys`
the mixed cases never meet at the same position (the lists alternate in
lock-step); they are fixed arbitrarily to keep the relation total,
whereas Python would raise `TypeError` there. -/
def cmpNKey : NKey → NKey → Ordering
  | NKey.n a, NKey.n b => cmpN a b
  | NKey.s a, NKey.s b => cmpStr a b
  | NKey.n _, NKey.s _ => Ordering.lt
  | NKey.s _, NKey.n _ => Ordering.gt

/-- Comparison of two natural sort keys. -/
def cmpKey (a b : List NKey) : Ordering := cmpLex cmpNKey a b

/-- The sorting relation of `sorted(port_data.keys(), key=natural_keys)`. -/
def portLe (a b : Str) : Prop := cmpKey (natural_keys a) (natural_keys b) ≠ Ordering.gt

instance : DecidableRel portLe := fun a b =>
  inferInstanceAs (Decidable (cmpKey (natural_keys a) (natural_keys b) ≠ Ordering.gt))

/-- The list `sorted_ports` (line 168).  `List.insertionSort` is a stable sort,
like Python's, so ties keep dict insertion order. -/
def sortedPorts (pd : PortMap) : List Str :=
  List.insertionSort portLe (pd.map Prod.fst)

/-- The ordered port rows of any rendered report of a document. -/
def reportPorts (doc : List Str) : List Str := sortedPorts (portDataOf doc)

/-- A row of the json output (lines 170-186).  Utilization fields hold
the exact value of `calc_util`; the display rounding to four decimal
places is presentation only and not modelled. -/
structure JsonRow where
  port : Str
  rowType : Str
  aliasVal : Str
  status : Str
  speed : Str
  media : Str
  rxUtil : ℚ
  txUtil : ℚ
deriving DecidableEq

/-- A row of the csv output (lines 188-199): commas in the alias are
replaced by semicolons; utilization display with four decimals is not
modelled. -/
structure CsvRow where
  port : Str
  rowType : Str
  aliasVal : Str
  status : Str
  speed : Str
  media : Str
  rxUtil : ℚ
  txUtil : ℚ
deriving DecidableEq

/-- A row of the table output (lines 210-226): a missing alias shows as
a dash; the two-decimal / literal-0% display is not modelled. -/
structure TableRow where
  port : Str
  rowType : Str
  aliasVal : Str
  status : Str
  speed : Str
  media : Str
  rxUtil : ℚ
  txUtil : ℚ
deriving DecidableEq

/-- The json branch (lines 170-186).  Every sorted port is a key of the
dict, so the lookup in `filterMap` never fails. -/
def renderJson (pd : PortMap) (al : Str → Option Str) : List JsonRow :=
  (sortedPorts pd).filterMap (fun port =>
    (alookup pd port).map (fun d =>
      { port := port,
        rowType := replaceAll d.ptype "(T)".toList [],
        aliasVal := (al port).getD [],
        status := pyCapitalize d.admin,
        speed := d.speed,
        media := d.media,
        rxUtil := calc_util d.rxRate d.speed,
        txUtil := calc_util d.txRate d.speed }))

/-- The csv branch rows (lines 188-199). -/
def renderCsv (pd : PortMap) (al : Str → Option Str) : List CsvRow :=
  (sortedPorts pd).filterMap (fun port =>
    (alookup pd port).map (fun d =>
      { port := port,
        rowType := replaceAll d.ptype "(T)".toList [],
        aliasVal := replaceAll ((al port).getD []) [','] [';'],
        status := pyCapitalize d.admin,
        speed := d.speed,
        media := d.media,
        rxUtil := calc_util d.rxRate d.speed,
        txUtil := calc_util d.txRate d.speed }))

/-- The table branch rows (lines 210-226). -/
def renderTable (pd : PortMap) (al : Str → Option Str) : List TableRow :=
  (sortedPorts pd).filterMap (fun port =>
    (alookup pd port).map (fun d =>
      { port := port,
        rowType := replaceAll d.ptype "(T)".toList [],
        aliasVal := (al port).getD "-".toList,
        status := pyCapitalize d.admin,
        speed := d.speed,
        media := d.media,
        rxUtil := calc_util d.rxRate d.speed,
        txUtil := calc_util d.txRate d.speed }))

/-- Summary counts: total ports, admins equal to enabled / disabled
case-insensitively. -/
structure Summary where
  total : Nat
  enabled : Nat
  disabled : Nat
deriving DecidableEq

/-- The summary rows the csv branch appends (lines 201-208). -/
def csvSummary (pd : PortMap) : Summary :=
  { total := pd.length,
    enabled := (pd.filter (fun e => pyLower e.2.admin == "enabled".toList)).length,
    disabled := (pd.filter (fun e => pyLower e.2.admin == "disabled".toList)).length }

/-- The summary block of the table format (lines 229-236). -/
def tableSummary (pd : PortMap) : Summary :=
  { total := pd.length,
    enabled := (pd.filter (fun e => pyLower e.2.admin == "enabled".toList)).length,
    disabled := (pd.filter (fun e => pyLower e.2.admin == "disabled".toList)).length }

/-- The requested output encoding. -/
inductive Format where
  | table
  | csv
  | json
deriving DecidableEq

/-- The printed report: rows, plus the summary block when one is
printed. -/
inductive Output where
  | json : List JsonRow → Output
  | csv : List CsvRow → Option Summary → Output
  | table : List TableRow → Option Summary → Output
deriving DecidableEq

/-- Step 3, the whole output phase (lines 170-236).  The csv branch
appends its summary rows unconditionally — `show_summary` is consulted
only by the table branch (line 229). -/
def render (fmt : Format) (showSummary : Bool) (pd : PortMap)
    (al : Str → Option Str) : Output :=
  match fmt with
  | Format.json => Output.json (renderJson pd al)
  | Format.csv => Output.csv (renderCsv pd al) (some (csvSummary pd))
  | Format.table =>
    Output.table (renderTable pd al)
      (if showSummary then some (tableSummary pd) else none)

/-- The port identifiers of the rows of a rendered report. -/
def rowPorts : Output → List Str
  | Output.json rows => rows.map JsonRow.port
  | Output.csv rows _ => rows.map CsvRow.port
  | Output.table rows _ => rows.map TableRow.port

/-- The port columns a single line contributes as a parameter-block
header. -/
def headerPortsOfLine (raw : Str) : List Str :=
  match headerMatch (pyStrip raw) with
  | some g => splitWs2 g
  | none => []

/-- All port identifiers listed as columns of some parameter-block
header line of the document. -/
def headerPorts (doc : List Str) : List Str :=
  doc.foldr (fun l acc => headerPortsOfLine l ++ acc) []

/-- The ports written to by some `Admin` row of the document, replaying
the header/column state of the inventory scan: an `Admin` row writes
exactly the first `len(values)` active columns. -/
def adminTargetsGo (cur : List Str) : List Str → List Str
  | [] => []
  | l :: ls =>
    let line := pyStrip l
    match headerMatch line with
    | some g => adminTargetsGo (splitWs2 g) ls
    | none =>
      if startsEq line || cur.isEmpty then adminTargetsGo cur ls
      else
        match splitWs2 line with
        | l0 :: v :: vs =>
          if stripLabel l0 = "Admin".toList then
            cur.take (v :: vs).length ++ adminTargetsGo cur ls
          else adminTargetsGo cur ls
        | _ => adminTargetsGo cur ls

/-- The ports of a document that receive at least one `Admin` value. -/
def adminTargets (doc : List Str) : List Str := adminTargetsGo [] doc

/-- The status strings rendered for a given port in the json rows. -/
def jsonStatuses (pd : PortMap) (al : Str → Option Str) (p : Str) : List Str :=
  ((renderJson pd al).filter (fun r => r.port == p)).map JsonRow.status

/-- The status strings rendered for a given port in the csv rows. -/
def csvStatuses (pd : PortMap) (al : Str → Option Str) (p : Str) : List Str :=
  ((renderCsv pd al).filter (fun r => r.port == p)).map CsvRow.status

/-- The status strings rendered for a given port in the table rows. -/
def tableStatuses (pd : PortMap) (al : Str → Option Str) (p : Str) : List Str :=
  ((renderTable pd al).filter (fun r => r.port == p)).map TableRow.status

/-- Media classification as the specification words it: the same
case-insensitive checks in the same precedence order, the membership
test written as the enumerated alternatives. -/
def specMedia (v : Str) : Str :=
  let vl := pyLower v
  if containsSub "cu".toList vl || containsSub "copper".toList vl then
    "Copper".toList
  else if containsSub "sx".toList vl || containsSub "lx".toList vl ||
      containsSub "sr".toList vl || containsSub "lr".toList vl ||
      containsSub "er".toList vl || containsSub "zr".toList vl then
    "Fiber".toList
  else if containsSub "qsfp".toList vl then
    "Fiber (QSFP)".toList
  else if vl = "none".toList ∨ vl = "n/a".toList ∨ vl = "(unsupported)".toList then
    "No Module".toList
  else v

/-- Utilization as the specification words it: `(rate * 8 * 100) /
speed_bits_per_sec` with the speed table keyed by substring, `0.0` for
an unrecognized speed or non-numeric rate. -/
def specUtil (rate_str speed_str : Str) : ℚ :=
  match parseFloat rate_str with
  | none => 0
  | some rate =>
    if containsSub "100Gb".toList speed_str then rate * 8 * 100 / 100000000000
    else if containsSub "40Gb".toList speed_str then rate * 8 * 100 / 40000000000
    else if containsSub "10Gb".toList speed_str then rate * 8 * 100 / 10000000000
    else if containsSub "1Gb".toList speed_str then rate * 8 * 100 / 1000000000
    else if containsSub "100Mb".toList speed_str then rate * 8 * 100 / 100000000
    else 0

/-- The suffix of the document from the first line containing
`Running Configuration` onward (empty when no line contains it). -/
def dropToMarker : List Str → List Str
  | [] => []
  | l :: ls =>
    if containsSub "Running Configuration".toList l then l :: ls
    else dropToMarker ls

/-- The alias table as the specification words it: among the lines at
or after the first marker line, the trailing capture of the last line
matching the alias pattern for the port, trimmed and with double quotes
removed (`aliasMatch` already performs that processing); lines before
the marker contribute nothing. -/
def specAliasLookup (doc : List Str) (p : Str) : Option Str :=
  (dropToMarker doc).foldl
    (fun acc l =>
      match aliasMatch l with
      | some pa => if p = pa.1 then some pa.2 else acc
      | none => acc)
    none

/-- A one-header demonstration document with ports whose natural order
differs from the lexicographic one. -/
def demoDoc : List Str := ["Parameter  1/1/x1  1/1/x10  1/1/x2".toList]

/-- A demonstration document exercising the `Speed (Mbps)` row. -/
def speedDoc : List Str :=
  ["Parameter  1/1/x1".toList, "Speed (Mbps):  1000".toList]

/-- A demonstration document exercising the `SFP type` row. -/
def sfpDoc : List Str :=
  ["Parameter  1/1/x1".toList, "SFP type:  sfp-cu".toList]

theorem cmpN_swap (a b : Nat) : (cmpN a b).swap = cmpN b a := by
  unfold cmpN
  split_ifs
  all_goals first | rfl | omega

theorem cmpN_eq_of {a b : Nat} (h : cmpN a b = Ordering.eq) : a = b := by
  unfold cmpN at h
  split_ifs at h
  all_goals omega

theorem cmpN_lt_trans {a b c : Nat} (h1 : cmpN a b = Ordering.lt)
    (h2 : cmpN b c = Ordering.lt) : cmpN a c = Ordering.lt := by
  unfold cmpN at *
  split_ifs at *
  all_goals first | rfl | omega

theorem cmpChar_eq_toNat {a b : Char} (h : cmpChar a b = Ordering.eq) :
    a.toNat = b.toNat := cmpN_eq_of h

theorem cmpChar_congr_l {a b : Char} (h : cmpChar a b = Ordering.eq) (c : Char) :
    cmpChar a c = cmpChar b c := by
  unfold cmpChar
  rw [cmpChar_eq_toNat h]

theorem cmpChar_congr_r {a b : Char} (h : cmpChar a b = Ordering.eq) (c : Char) :
    cmpChar c a = cmpChar c b := by
  unfold cmpChar
  rw [cmpChar_eq_toNat h]

theorem cmpLex_swap {α : Type} (cmpE : α → α → Ordering)
    (hE : ∀ a b, (cmpE a b).swap = cmpE b a) :
    ∀ x y, (cmpLex cmpE x y).swap = cmpLex cmpE y x := by
  intro x
  induction x with
  | nil => intro y; cases y <;> rfl
  | cons a as ih =>
    intro y
    cases y with
    | nil => rfl
    | cons b bs =>
      simp only [cmpLex]
      cases h : cmpE a b with
      | lt => rw [← hE a b, h]; rfl
      | gt => rw [← hE a b, h]; rfl
      | eq => rw [← hE a b, h]; simpa using ih bs

theorem cmpLex_congr_l {α : Type} (cmpE : α → α → Ordering)
    (hE : ∀ a b, cmpE a b = Ordering.eq → ∀ c, cmpE a c = cmpE b c) :
    ∀ x y, cmpLex cmpE x y = Ordering.eq →
      ∀ z, cmpLex cmpE x z = cmpLex cmpE y z := by
  intro x
  induction x with
  | nil =>
    intro y h z
    cases y with
    | nil => rfl
    | cons b bs => simp [cmpLex] at h
  | cons a as ih =>
    intro y h z
    cases y with
    | nil => simp [cmpLex] at h
    | cons b bs =>
      simp only [cmpLex] at h
      cases he : cmpE a b with
      | lt => rw [he] at h; simp at h
      | gt => rw [he] at h; simp at h
      | eq =>
        rw [he] at h
        cases z with
        | nil => rfl
        | cons c cs =>
          simp only [cmpLex]
          rw [hE a b he c]
          cases h2 : cmpE b c with
          | lt => rfl
          | gt => rfl
          | eq => exact ih bs h cs

theorem cmpLex_congr_r {α : Type} (cmpE : α → α → Ordering)
    (hE : ∀ a b, cmpE a b = Ordering.eq → ∀ c, cmpE c a = cmpE c b) :
    ∀ x y, cmpLex cmpE x y = Ordering.eq →
      ∀ z, cmpLex cmpE z x = cmpLex cmpE z y := by
  intro x
  induction x with
  | nil =>
    intro y h z
    cases y with
    | nil => rfl
    | cons b bs => simp [cmpLex] at h
  | cons a as ih =>
    intro y h z
    cases y with
    | nil => simp [cmpLex] at h
    | cons b bs =>
      simp only [cmpLex] at h
      cases he : cmpE a b with
      | lt => rw [he] at h; simp at h
      | gt => rw [he] at h; simp at h
      | eq =>
        rw [he] at h
        cases z with
        | nil => rfl
        | cons c cs =>
          simp only [cmpLex]
          rw [hE a b he c]
          cases h2 : cmpE c b with
          | lt => rfl
          | gt => rfl
          | eq => exact ih bs h cs

theorem cmpLex_lt_trans {α : Type} (cmpE : α → α → Ordering)
    (hlt : ∀ {a b c}, cmpE a b = Ordering.lt → cmpE b c = Ordering.lt →
      cmpE a c = Ordering.lt)
    (hcl : ∀ a b, cmpE a b = Ordering.eq → ∀ c, cmpE a c = cmpE b c)
    (hcr : ∀ a b, cmpE a b = Ordering.eq → ∀ c, cmpE c a = cmpE c b) :
    ∀ x y z, cmpLex cmpE x y = Ordering.lt → cmpLex cmpE y z = Ordering.lt →
      cmpLex cmpE x z = Ordering.lt := by
  intro x
  induction x with
  | nil =>
    intro y z h1 h2
    cases y with
    | nil => simp [cmpLex] at h1
    | cons b bs =>
      cases z with
      | nil => simp [cmpLex] at h2
      | cons c cs => rfl
  | cons a as ih =>
    intro y z h1 h2
    cases y with
    | nil => simp [cmpLex] at h1
    | cons b bs =>
      cases z with
      | nil => simp [cmpLex] at h2
      | cons c cs =>
        simp only [cmpLex] at h1 h2 ⊢
        cases he1 : cmpE a b with
        | gt => rw [he1] at h1; simp at h1
        | lt =>
          rw [he1] at h1
          cases he2 : cmpE b c with
          | gt => rw [he2] at h2; simp at h2
          | lt => rw [hlt he1 he2]
          | eq => rw [← hcr b c he2 a, he1]
        | eq =>
          rw [he1] at h1
          cases he2 : cmpE b c with
          | gt => rw [he2] at h2; simp at h2
          | lt => rw [hcl a b he1 c, he2]
          | eq =>
            rw [he2] at h2
            rw [hcl a b he1 c, he2]
            exact ih bs cs h1 h2

theorem cmpStr_swap (a b : Str) : (cmpStr a b).swap = cmpStr b a :=
  cmpLex_swap cmpChar (fun x y => cmpN_swap x.toNat y.toNat) a b

theorem cmpStr_congr_l {a b : Str} (h : cmpStr a b = Ordering.eq) (c : Str) :
    cmpStr a c = cmpStr b c :=
  cmpLex_congr_l cmpChar (fun _ _ hh => cmpChar_congr_l hh) a b h c

theorem cmpStr_congr_r {a b : Str} (h : cmpStr a b = Ordering.eq) (c : Str) :
    cmpStr c a = cmpStr c b :=
  cmpLex_congr_r cmpChar (fun _ _ hh => cmpChar_congr_r hh) a b h c

theorem cmpStr_lt_trans {a b c : Str} (h1 : cmpStr a b = Ordering.lt)
    (h2 : cmpStr b c = Ordering.lt) : cmpStr a c = Ordering.lt :=
  cmpLex_lt_trans cmpChar (fun hx hy => cmpN_lt_trans hx hy)
    (fun _ _ hh => cmpChar_congr_l hh) (fun _ _ hh => cmpChar_congr_r hh) a b c h1 h2

theorem cmpNKey_swap (a b : NKey) : (cmpNKey a b).swap = cmpNKey b a := by
  cases a <;> cases b <;> first | rfl | exact cmpStr_swap _ _ | exact cmpN_swap _ _

theorem cmpNKey_congr_l {a b : NKey} (h : cmpNKey a b = Ordering.eq) (c : NKey) :
    cmpNKey a c = cmpNKey b c := by
  cases a with
  | n x =>
    cases b with
    | n y => cases cmpN_eq_of h; rfl
    | s y => simp [cmpNKey] at h
  | s x =>
    cases b with
    | n y => simp [cmpNKey] at h
    | s y =>
      cases c with
      | n z => rfl
      | s z => exact cmpStr_congr_l h z

theorem cmpNKey_congr_r {a b : NKey} (h : cmpNKey a b = Ordering.eq) (c : NKey) :
    cmpNKey c a = cmpNKey c b := by
  cases a with
  | n x =>
    cases b with
    | n y => cases cmpN_eq_of h; rfl
    | s y => simp [cmpNKey] at h
  | s x =>
    cases b with
    | n y => simp [cmpNKey] at h
    | s y =>
      cases c with
      | n z => rfl
      | s z => exact cmpStr_congr_r h z

theorem cmpNKey_lt_trans {a b c : NKey} (h1 : cmpNKey a b = Ordering.lt)
    (h2 : cmpNKey b c = Ordering.lt) : cmpNKey a c = Ordering.lt := by
  cases a with
  | n x =>
    cases b with
    | n y =>
      cases c with
      | n z => exact cmpN_lt_trans h1 h2
      | s z => rfl
    | s y =>
      cases c with
      | n z => simp [cmpNKey] at h2
      | s z => rfl
  | s x =>
    cases b with
    | n y => simp [cmpNKey] at h1
    | s y =>
      cases c with
      | n z => simp [cmpNKey] at h2
      | s z => exact cmpStr_lt_trans h1 h2

theorem cmpKey_swap (a b : List NKey) : (cmpKey a b).swap = cmpKey b a :=
  cmpLex_swap cmpNKey cmpNKey_swap a b

theorem cmpKey_congr_l {a b : List NKey} (h : cmpKey a b = Ordering.eq)
    (c : List NKey) : cmpKey a c = cmpKey b c :=
  cmpLex_congr_l cmpNKey (fun _ _ hh => cmpNKey_congr_l hh) a b h c

theorem cmpKey_congr_r {a b : List NKey} (h : cmpKey a b = Ordering.eq)
    (c : List NKey) : cmpKey c a = cmpKey c b :=
  cmpLex_congr_r cmpNKey (fun _ _ hh => cmpNKey_congr_r hh) a b h c

theorem cmpKey_lt_trans {a b c : List NKey} (h1 : cmpKey a b = Ordering.lt)
    (h2 : cmpKey b c = Ordering.lt) : cmpKey a c = Ordering.lt :=
  cmpLex_lt_trans cmpNKey (fun hx hy => cmpNKey_lt_trans hx hy)
    (fun _ _ hh => cmpNKey_congr_l hh) (fun _ _ hh => cmpNKey_congr_r hh) a b c h1 h2

theorem portLe_total : ∀ a b : Str, portLe a b ∨ portLe b a := by
  intro a b
  unfold portLe
  cases h : cmpKey (natural_keys a) (natural_keys b) with
  | lt => left; simp
  | eq => left; simp
  | gt =>
    right
    have hs := cmpKey_swap (natural_keys a) (natural_keys b)
    rw [h] at hs
    rw [← hs]
    simp [Ordering.swap]

theorem portLe_trans : ∀ a b c : Str, portLe a b → portLe b c → portLe a c := by
  intro a b c h1 h2
  unfold portLe at *
  cases hab : cmpKey (natural_keys a) (natural_keys b) with
  | gt => exact absurd hab h1
  | eq => rw [cmpKey_congr_l hab (natural_keys c)]; exact h2
  | lt =>
    cases hbc : cmpKey (natural_keys b) (natural_keys c) with
    | gt => exact absurd hbc h2
    | eq => rw [← cmpKey_congr_r hbc (natural_keys a), hab]; simp
    | lt => rw [cmpKey_lt_trans hab hbc]; simp

/-- Claim C5: in every rendered report the ports are ordered by the
natural sort key (`natural_keys` splits the identifier into alternating
non-digit and digit runs, digit runs compared numerically, non-digit
runs lexicographically): the rendered order is a permutation of the
parsed port set sorted by that key, and on the port set
{1/1/x1, 1/1/x2, 1/1/x10} the rendered order is x1, x2, x10, not the
lexicographic x1, x10, x2. -/
theorem c5_natural_sort_order :
    (∀ pd : PortMap, List.Sorted portLe (sortedPorts pd) ∧
      (sortedPorts pd).Perm (pd.map Prod.fst)) ∧
    reportPorts demoDoc =
      ["1/1/x1".toList, "1/1/x2".toList, "1/1/x10".toList] := by
  constructor
  · intro pd
    constructor
    · exact @List.sorted_insertionSort Str portLe _ ⟨portLe_total⟩
        ⟨fun _ _ _ h1 h2 => portLe_trans _ _ _ h1 h2⟩ _
    · exact List.perm_insertionSort portLe _
  · rfl

theorem aliasFold_true (p : Str) :
    ∀ (lines : List Str) (d : Str → Option Str),
      ((lines.foldl processAliasLine { inRC := true, aliases := d }).aliases) p =
        lines.foldl
          (fun acc l =>
            match aliasMatch l with
            | some pa => if p = pa.1 then some pa.2 else acc
            | none => acc)
          (d p) := by
  intro lines
  induction lines with
  | nil => intro d; rfl
  | cons l ls ih =>
    intro d
    simp only [List.foldl_cons]
    cases ha : aliasMatch l with
    | none =>
      have hstep : processAliasLine { inRC := true, aliases := d } l =
          { inRC := true, aliases := d } := by
        simp only [processAliasLine]
        rw [ha]
        simp
      rw [hstep]
      exact ih d
    | some pa =>
      have hstep : processAliasLine { inRC := true, aliases := d } l =
          { inRC := true,
            aliases := fun q => (if q = pa.1 then some pa.2 else d q) } := by
        simp only [processAliasLine]
        rw [ha]
        simp
      rw [hstep]
      exact ih (fun q => (if q = pa.1 then some pa.2 else d q))

theorem aliasFold_false (p : Str) :
    ∀ (lines : List Str) (d : Str → Option Str),
      ((lines.foldl processAliasLine { inRC := false, aliases := d }).aliases) p =
        (dropToMarker lines).foldl
          (fun acc l =>
            match aliasMatch l with
            | some pa => if p = pa.1 then some pa.2 else acc
            | none => acc)
          (d p) := by
  intro lines
  induction lines with
  | nil => intro d; rfl
  | cons l ls ih =>
    intro d
    cases hm : containsSub "Running Configuration".toList l with
    | false =>
      have hstep : processAliasLine { inRC := false, aliases := d } l =
          { inRC := false, aliases := d } := by
        simp only [processAliasLine]
        rw [hm]
        simp
      have hdrop : dropToMarker (l :: ls) = dropToMarker ls := by
        simp only [dropToMarker]
        rw [hm]
        simp
      rw [List.foldl_cons, hstep, hdrop]
      exact ih d
    | true =>
      have hstep : processAliasLine { inRC := false, aliases := d } l =
          processAliasLine { inRC := true, aliases := d } l := by
        simp only [processAliasLine]
        rw [hm]
        simp
      have hdrop : dropToMarker (l :: ls) = l :: ls := by
        simp only [dropToMarker]
        rw [hm]
        simp
      rw [List.foldl_cons, hstep, hdrop]
      exact aliasFold_true p (l :: ls) d

/-- Claim C7: the alias table computed by step 1 is exactly the
claim-side specification: for every document and port, the alias is the
trailing capture of the last line at or after the first
`Running Configuration` line that matches the alias pattern for that
port (trimmed, double quotes removed), and lines before the marker
contribute nothing. -/
theorem c7_alias_extraction :
    ∀ (doc : List Str) (p : Str), parseAliases doc p = specAliasLookup doc p := by
  intro doc p
  unfold parseAliases specAliasLookup
  exact aliasFold_false p doc (fun _ => none)

/-- Claim C6 (amended form is the claim itself): `Speed (Mbps)` values
1000/10000/40000/100000 are stored as 1Gb/10Gb/40Gb/100Gb, a concrete
document stores 1Gb for a 1000 row, and every other value is stored
unchanged. -/
theorem c6_speed_normalization :
    (normalizeSpeed "1000".toList = "1Gb".toList ∧
     normalizeSpeed "10000".toList = "10Gb".toList ∧
     normalizeSpeed "40000".toList = "40Gb".toList ∧
     normalizeSpeed "100000".toList = "100Gb".toList ∧
     (alookup (portDataOf speedDoc) "1/1/x1".toList).map PortInfo.speed =
       some "1Gb".toList) ∧
    ∀ v : Str,
      ¬(v = "1000".toList ∨ v = "10000".toList ∨ v = "40000".toList ∨
        v = "100000".toList) →
      normalizeSpeed v = v := by
  constructor
  · exact ⟨rfl, rfl, rfl, rfl, rfl⟩
  · intro v hv
    push_neg at hv
    obtain ⟨h1, h2, h3, h4⟩ := hv
    unfold normalizeSpeed
    rw [if_neg h1, if_neg h2, if_neg h3, if_neg h4]

theorem c6_witness : normalizeSpeed "2500".toList = "2500".toList :=
  c6_speed_normalization.2 _ (by decide)

/-- Claim C3, counterexample to its final clause: an `SFP type` value
that is literally `Unknown` matches no keyword and falls through to the
raw value, so the stored Media is the string `Unknown`. -/
theorem c3_unknown_is_stored : classifyMedia "Unknown".toList = "Unknown".toList := by
  rfl

/-- Claim C3, amended: the media classification follows exactly the
claimed case-insensitive precedence chain (copper before fiber before
qsfp before the no-module aliases before the raw-value fallback), a
concrete copper module classifies as Copper through the parser, and the
pre-assignment default `Unknown` survives only when the raw value is
itself the string `Unknown` (via the fallback, not via the default). -/
theorem c3_media_precedence :
    (∀ v : Str, classifyMedia v = specMedia v ∧
      (v = "Unknown".toList ∨ ¬(classifyMedia v = "Unknown".toList))) ∧
    (alookup (portDataOf sfpDoc) "1/1/x1".toList).map PortInfo.media =
      some "Copper".toList := by
  constructor
  · intro v
    constructor
    · unfold classifyMedia specMedia
      simp only [List.any_cons, List.any_nil, Bool.or_false, Bool.or_eq_true,
        beq_iff_eq, Bool.or_assoc, or_assoc]
    · by_cases h : v = "Unknown".toList
      · exact Or.inl h
      · right
        unfold classifyMedia
        simp only []
        split_ifs
        · decide
        · decide
        · decide
        · decide
        · exact h
  · rfl

theorem c3_witness :
    "Unknown".toList = "Unknown".toList ∨
      ¬(classifyMedia "Unknown".toList = "Unknown".toList) :=
  (c3_media_precedence.1 ("Unknown".toList)).2

/-- Claim C4: `calc_util` computes exactly the claimed formula — the
rate times 8 times 100 over the speed in bits per second given by the
substring table (100Gb, 40Gb, 10Gb, 1Gb, 100Mb in that precedence), and
0.0 for a non-numeric rate or unrecognized speed; rate 1250000 at speed
1Gb is exactly 1 percent. -/
theorem c4_utilization :
    (∀ rate_str speed_str : Str,
      calc_util rate_str speed_str = specUtil rate_str speed_str) ∧
    calc_util "1250000".toList "1Gb".toList = 1 := by
  constructor
  · intro r s
    unfold calc_util specUtil
    cases hp : parseFloat r with
    | none => rfl
    | some q =>
      by_cases h1 : s = "N/A".toList
      · subst h1; rfl
      · by_cases h2 : s = "Unknown".toList
        · subst h2; rfl
        · by_cases h3 : s = "-".toList
          · subst h3; rfl
          · dsimp only
            rw [if_neg (not_or.mpr ⟨h1, not_or.mpr ⟨h2, h3⟩⟩)]
  · unfold calc_util
    have hp : parseFloat "1250000".toList = some (1 * ((1250000 : Nat) : ℚ) * 1) := rfl
    rw [hp]
    dsimp only
    rw [if_neg (by decide), if_neg (by decide), if_neg (by decide),
      if_neg (by decide), if_pos (by decide)]
    norm_num

/-- Claim C2, the code as it stands: requesting csv output with the
summary suppressed still emits the trailing summary rows — the csv
branch appends them unconditionally, ignoring `show_summary`. -/
theorem c2_csv_summary_despite_no_summary :
    render Format.csv false [] (fun _ => none) =
      Output.csv [] (some { total := 0, enabled := 0, disabled := 0 }) := by
  rfl

theorem alookup_cons {α : Type} (a : Str) (b : α) (rest : List (Str × α)) (k : Str) :
    alookup ((a, b) :: rest) k = if a = k then some b else alookup rest k := rfl

theorem pmContains_iff (pd : PortMap) (q : Str) :
    pmContains pd q = true ↔ q ∈ pd.map Prod.fst := by
  unfold pmContains
  rw [List.any_eq_true]
  constructor
  · rintro ⟨e, he, hq⟩
    rw [beq_iff_eq] at hq
    exact hq ▸ List.mem_map_of_mem Prod.fst he
  · intro hq
    rcases List.mem_map.mp hq with ⟨e, he, hfst⟩
    exact ⟨e, he, by rw [beq_iff_eq]; exact hfst⟩

theorem pmContains_eq_of_keys {pd pd' : PortMap}
    (h : pd'.map Prod.fst = pd.map Prod.fst) (q : Str) :
    pmContains pd' q = pmContains pd q := by
  by_cases hq : q ∈ pd.map Prod.fst
  · rw [(pmContains_iff pd q).mpr hq, (pmContains_iff pd' q).mpr (h ▸ hq)]
  · have h1 : pmContains pd q = false :=
      Bool.eq_false_iff.mpr (fun hh => hq ((pmContains_iff pd q).mp hh))
    have h2 : pmContains pd' q = false :=
      Bool.eq_false_iff.mpr (fun hh => hq (h ▸ (pmContains_iff pd' q).mp hh))
    rw [h1, h2]

theorem alookup_mem_fst {α : Type} :
    ∀ (d : List (Str × α)) (q : Str), q ∈ d.map Prod.fst → ∃ v, alookup d q = some v := by
  intro d
  induction d with
  | nil => intro q h; simp at h
  | cons e rest ih =>
    intro q h
    obtain ⟨a, b⟩ := e
    rw [List.map_cons] at h
    by_cases hq : a = q
    · exact ⟨b, by rw [alookup_cons, if_pos hq]⟩
    · rcases List.mem_cons.mp h with h | h
      · exact absurd h.symm hq
      · obtain ⟨v, hv⟩ := ih q h
        exact ⟨v, by rw [alookup_cons, if_neg hq]; exact hv⟩

theorem alookup_append_left {α : Type} :
    ∀ (d1 d2 : List (Str × α)) (k : Str) (v : α),
      alookup d1 k = some v → alookup (d1 ++ d2) k = some v := by
  intro d1
  induction d1 with
  | nil => intro d2 k v h; simp [alookup] at h
  | cons e rest ih =>
    intro d2 k v h
    obtain ⟨a, b⟩ := e
    rw [alookup_cons] at h
    rw [List.cons_append, alookup_cons]
    by_cases hq : a = k
    · rw [if_pos hq] at h ⊢; exact h
    · rw [if_neg hq] at h ⊢; exact ih d2 k v h

theorem alookup_append_right {α : Type} :
    ∀ (d1 d2 : List (Str × α)) (k : Str),
      alookup d1 k = none → alookup (d1 ++ d2) k = alookup d2 k := by
  intro d1
  induction d1 with
  | nil => intro d2 k _; rfl
  | cons e rest ih =>
    intro d2 k h
    obtain ⟨a, b⟩ := e
    rw [alookup_cons] at h
    rw [List.cons_append, alookup_cons]
    by_cases hq : a = k
    · rw [if_pos hq] at h; exact absurd h (by simp)
    · rw [if_neg hq] at h ⊢; exact ih d2 k h

theorem pmUpdateT_keys (pd : PortMap) (k : Str) (f : PortInfo → PortInfo) :
    (pmUpdateT pd k f).map Prod.fst = pd.map Prod.fst := by
  unfold pmUpdateT
  induction pd with
  | nil => rfl
  | cons e rest ih =>
    obtain ⟨a, b⟩ := e
    by_cases h : a = k <;> simp [h, ih]

theorem alookup_pmUpdateT (pd : PortMap) (k : Str) (f : PortInfo → PortInfo) (p : Str) :
    alookup (pmUpdateT pd k f) p =
      if p = k then (alookup pd p).map f else alookup pd p := by
  induction pd with
  | nil =>
    unfold pmUpdateT
    simp only [List.map_nil]
    by_cases hpk : p = k <;> simp [alookup, hpk]
  | cons e rest ih =>
    obtain ⟨a, b⟩ := e
    unfold pmUpdateT at ih ⊢
    rw [List.map_cons]
    by_cases hak : a = k
    · rw [if_pos hak]
      by_cases hpa : a = p
      · rw [alookup_cons, if_pos hpa, alookup_cons, if_pos hpa,
          if_pos (hpa ▸ hak ▸ rfl : p = k)]
        rfl
      · rw [alookup_cons, if_neg hpa, alookup_cons, if_neg hpa, ih]
    · rw [if_neg hak]
      by_cases hpa : a = p
      · have hpk : ¬p = k := fun hh => hak (hpa.symm ▸ hh)
        rw [alookup_cons, if_pos hpa, alookup_cons, if_pos hpa, if_neg hpk]
      · rw [alookup_cons, if_neg hpa, alookup_cons, if_neg hpa, ih]

theorem insertNew_cons (pd : PortMap) (p : Str) (ps : List Str) :
    insertNew pd (p :: ps) =
      insertNew (if pmContains pd p then pd else pd ++ [(p, defaultPortInfo)]) ps := rfl

theorem pmContains_append_single (pd : PortMap) (k : Str) (v : PortInfo) (q : Str) :
    pmContains (pd ++ [(k, v)]) q = (pmContains pd q || k == q) := by
  unfold pmContains
  rw [List.any_append]
  simp

theorem insertNew_contains :
    ∀ (ports : List Str) (pd : PortMap) (q : Str),
      q ∈ ports ∨ pmContains pd q = true →
      pmContains (insertNew pd ports) q = true := by
  intro ports
  induction ports with
  | nil =>
    intro pd q h
    rcases h with h | h
    · simp at h
    · exact h
  | cons p ps ih =>
    intro pd q h
    rw [insertNew_cons]
    by_cases hc : pmContains pd p = true
    · rw [if_pos hc]
      apply ih
      rcases h with h | h
      · rcases List.mem_cons.mp h with h | h
        · right; exact h ▸ hc
        · left; exact h
      · right; exact h
    · rw [if_neg hc]
      apply ih
      rcases h with h | h
      · rcases List.mem_cons.mp h with h | h
        · right
          rw [pmContains_append_single]
          subst h
          simp
        · left; exact h
      · right
        rw [pmContains_append_single, h]
        rfl

theorem insertNew_keys :
    ∀ (ports : List Str) (pd : PortMap) (q : Str),
      q ∈ (insertNew pd ports).map Prod.fst →
      q ∈ pd.map Prod.fst ∨ q ∈ ports := by
  intro ports
  induction ports with
  | nil => intro pd q h; exact Or.inl h
  | cons p ps ih =>
    intro pd q h
    rw [insertNew_cons] at h
    by_cases hc : pmContains pd p = true
    · rw [if_pos hc] at h
      rcases ih _ _ h with h | h
      · exact Or.inl h
      · exact Or.inr (List.mem_cons_of_mem p h)
    · rw [if_neg hc] at h
      rcases ih _ _ h with h | h
      · rw [List.map_append] at h
        rcases List.mem_append.mp h with h | h
        · exact Or.inl h
        · simp at h
          exact Or.inr (h ▸ List.mem_cons_self p ps)
      · exact Or.inr (List.mem_cons_of_mem p h)

theorem insertNew_lookup :
    ∀ (ports : List Str) (pd : PortMap) (p : Str) (r : PortInfo),
      alookup (insertNew pd ports) p = some r →
      alookup pd p = some r ∨ r = defaultPortInfo := by
  intro ports
  induction ports with
  | nil => intro pd p r h; exact Or.inl h
  | cons q qs ih =>
    intro pd p r h
    rw [insertNew_cons] at h
    by_cases hc : pmContains pd q = true
    · rw [if_pos hc] at h
      exact ih _ _ _ h
    · rw [if_neg hc] at h
      rcases ih _ _ _ h with h | h
      · cases hl : alookup pd p with
        | some v =>
          have hv := alookup_append_left pd [(q, defaultPortInfo)] p v hl
          exact Or.inl (hv.symm.trans h)
        | none =>
          rw [alookup_append_right pd [(q, defaultPortInfo)] p hl, alookup_cons] at h
          by_cases hqp : q = p
          · rw [if_pos hqp] at h
            right
            exact (Option.some.inj h).symm
          · rw [if_neg hqp] at h
            simp [alookup] at h
      · exact Or.inr h

theorem setVals_ok (upd : Str → PortInfo → PortInfo) :
    ∀ (ports vals : List Str) (pd : PortMap),
      (∀ q ∈ ports, pmContains pd q = true) →
      ∃ pd', setVals upd ports vals pd = Except.ok pd' ∧
        pd'.map Prod.fst = pd.map Prod.fst := by
  intro ports
  induction ports with
  | nil =>
    intro vals pd _
    cases vals with
    | nil => exact ⟨pd, rfl, rfl⟩
    | cons v vs => exact ⟨pd, rfl, rfl⟩
  | cons p ps ih =>
    intro vals pd hc
    cases vals with
    | nil => exact ⟨pd, rfl, rfl⟩
    | cons v vs =>
      have hcp : pmContains pd p = true := hc p (List.mem_cons_self p ps)
      obtain ⟨pd', h1, h2⟩ := ih vs (pmUpdateT pd p (upd v)) (fun q hq => by
        rw [pmContains_eq_of_keys (pmUpdateT_keys pd p (upd v)) q]
        exact hc q (List.mem_cons_of_mem p hq))
      refine ⟨pd', ?_, h2.trans (pmUpdateT_keys pd p (upd v))⟩
      show (do
        let pd0 ← pmUpdate pd p (upd v)
        setVals upd ps vs pd0) = Except.ok pd'
      unfold pmUpdate
      rw [if_pos hcp]
      exact h1

theorem setVals_lookup_eq (upd : Str → PortInfo → PortInfo) :
    ∀ (ports vals : List Str) (pd pd' : PortMap),
      setVals upd ports vals pd = Except.ok pd' →
      ∀ p : Str, p ∉ ports.take vals.length → alookup pd' p = alookup pd p := by
  intro ports
  induction ports with
  | nil =>
    intro vals pd pd' h p _
    cases vals with
    | nil => exact congrArg (fun x => alookup x p) (Except.ok.inj h).symm
    | cons v vs => exact congrArg (fun x => alookup x p) (Except.ok.inj h).symm
  | cons q qs ih =>
    intro vals pd pd' h p hp
    cases vals with
    | nil => exact congrArg (fun x => alookup x p) (Except.ok.inj h).symm
    | cons v vs =>
      rw [List.length_cons, List.take_succ_cons] at hp
      have hqp : ¬p = q := fun hh => hp (hh ▸ List.mem_cons_self q _)
      have hps : p ∉ qs.take vs.length := fun hh => hp (List.mem_cons_of_mem q hh)
      revert h
      show (do
        let pd0 ← pmUpdate pd q (upd v)
        setVals upd qs vs pd0) = Except.ok pd' → _
      unfold pmUpdate
      by_cases hc : pmContains pd q = true
      · rw [if_pos hc]
        intro h
        rw [ih vs _ pd' h p hps, alookup_pmUpdateT, if_neg hqp]
      · rw [if_neg hc]
        intro h
        exact absurd h (by simp [Bind.bind, Except.bind])

theorem setVals_admin (upd : Str → PortInfo → PortInfo)
    (hupd : ∀ v r, (upd v r).admin = r.admin) :
    ∀ (ports vals : List Str) (pd pd' : PortMap),
      setVals upd ports vals pd = Except.ok pd' →
      ∀ p : Str, (alookup pd' p).map PortInfo.admin = (alookup pd p).map PortInfo.admin := by
  intro ports
  induction ports with
  | nil =>
    intro vals pd pd' h p
    cases vals with
    | nil => exact congrArg (fun x => (alookup x p).map PortInfo.admin) (Except.ok.inj h).symm
    | cons v vs => exact congrArg (fun x => (alookup x p).map PortInfo.admin) (Except.ok.inj h).symm
  | cons q qs ih =>
    intro vals pd pd' h p
    cases vals with
    | nil => exact congrArg (fun x => (alookup x p).map PortInfo.admin) (Except.ok.inj h).symm
    | cons v vs =>
      revert h
      show (do
        let pd0 ← pmUpdate pd q (upd v)
        setVals upd qs vs pd0) = Except.ok pd' → _
      unfold pmUpdate
      by_cases hc : pmContains pd q = true
      · rw [if_pos hc]
        intro h
        rw [ih vs _ pd' h p, alookup_pmUpdateT]
        by_cases hpq : p = q
        · rw [if_pos hpq]
          cases alookup pd p <;> simp [hupd]
        · rw [if_neg hpq]
      · rw [if_neg hc]
        intro h
        exact absurd h (by simp [Bind.bind, Except.bind])

theorem setStatsVals_keys (upd : Str → PortInfo → PortInfo) :
    ∀ (ports vals : List Str) (pd : PortMap),
      (setStatsVals upd ports vals pd).map Prod.fst = pd.map Prod.fst := by
  intro ports
  induction ports with
  | nil =>
    intro vals pd
    cases vals with
    | nil => rfl
    | cons v vs => rfl
  | cons q qs ih =>
    intro vals pd
    cases vals with
    | nil => rfl
    | cons v vs =>
      show (setStatsVals upd qs vs _).map Prod.fst = _
      rw [ih]
      by_cases hc : pmContains pd q = true
      · rw [if_pos hc, pmUpdateT_keys]
      · rw [if_neg hc]

theorem setStatsVals_admin (upd : Str → PortInfo → PortInfo)
    (hupd : ∀ v r, (upd v r).admin = r.admin) :
    ∀ (ports vals : List Str) (pd : PortMap) (p : Str),
      (alookup (setStatsVals upd ports vals pd) p).map PortInfo.admin =
        (alookup pd p).map PortInfo.admin := by
  intro ports
  induction ports with
  | nil =>
    intro vals pd p
    cases vals with
    | nil => rfl
    | cons v vs => rfl
  | cons q qs ih =>
    intro vals pd p
    cases vals with
    | nil => rfl
    | cons v vs =>
      show (alookup (setStatsVals upd qs vs _) p).map PortInfo.admin = _
      rw [ih]
      by_cases hc : pmContains pd q = true
      · rw [if_pos hc, alookup_pmUpdateT]
        by_cases hpq : p = q
        · rw [if_pos hpq]
          cases alookup pd p <;> simp [hupd]
        · rw [if_neg hpq]
      · rw [if_neg hc]

theorem processInvLine_header (st : InvState) (raw g : Str)
    (hh : headerMatch (pyStrip raw) = some g) :
    processInvLine st raw = Except.ok
      { currentPorts := splitWs2 g,
        portData := insertNew st.portData (splitWs2 g) } := by
  simp only [processInvLine]
  rw [hh]

theorem processInvLine_skip (st : InvState) (raw : Str)
    (hh : headerMatch (pyStrip raw) = none)
    (hs : (startsEq (pyStrip raw) || st.currentPorts.isEmpty) = true) :
    processInvLine st raw = Except.ok st := by
  simp only [processInvLine]
  rw [hh, if_pos hs]

theorem processInvLine_short (st : InvState) (raw : Str)
    (hh : headerMatch (pyStrip raw) = none)
    (hs : (startsEq (pyStrip raw) || st.currentPorts.isEmpty) = false)
    (hsp : splitWs2 (pyStrip raw) = [] ∨ ∃ x, splitWs2 (pyStrip raw) = [x]) :
    processInvLine st raw = Except.ok st := by
  simp only [processInvLine]
  rw [hh, if_neg (by rw [hs]; exact Bool.false_ne_true)]
  rcases hsp with hsp | ⟨x, hsp⟩ <;> rw [hsp]

theorem processInvLine_rowType (st : InvState) (raw l0 v : Str) (vs : List Str)
    (hh : headerMatch (pyStrip raw) = none)
    (hs : (startsEq (pyStrip raw) || st.currentPorts.isEmpty) = false)
    (hsp : splitWs2 (pyStrip raw) = l0 :: v :: vs)
    (hl : stripLabel l0 = "Type".toList) :
    processInvLine st raw =
      (setVals (fun val r => { r with ptype := val })
        st.currentPorts (v :: vs) st.portData).map
        (fun pd => { st with portData := pd }) := by
  simp only [processInvLine]
  rw [hh, if_neg (by rw [hs]; exact Bool.false_ne_true), hsp]
  dsimp only
  rw [if_pos hl]

theorem processInvLine_rowAdmin (st : InvState) (raw l0 v : Str) (vs : List Str)
    (hh : headerMatch (pyStrip raw) = none)
    (hs : (startsEq (pyStrip raw) || st.currentPorts.isEmpty) = false)
    (hsp : splitWs2 (pyStrip raw) = l0 :: v :: vs)
    (hl : stripLabel l0 = "Admin".toList) :
    processInvLine st raw =
      (setVals (fun val r => { r with admin := val })
        st.currentPorts (v :: vs) st.portData).map
        (fun pd => { st with portData := pd }) := by
  simp only [processInvLine]
  rw [hh, if_neg (by rw [hs]; exact Bool.false_ne_true), hsp]
  dsimp only
  rw [if_neg (by rw [hl]; decide), if_pos hl]

theorem processInvLine_rowSpeed (st : InvState) (raw l0 v : Str) (vs : List Str)
    (hh : headerMatch (pyStrip raw) = none)
    (hs : (startsEq (pyStrip raw) || st.currentPorts.isEmpty) = false)
    (hsp : splitWs2 (pyStrip raw) = l0 :: v :: vs)
    (hl : stripLabel l0 = "Speed (Mbps)".toList) :
    processInvLine st raw =
      (setVals (fun val r => { r with speed := normalizeSpeed val })
        st.currentPorts (v :: vs) st.portData).map
        (fun pd => { st with portData := pd }) := by
  simp only [processInvLine]
  rw [hh, if_neg (by rw [hs]; exact Bool.false_ne_true), hsp]
  dsimp only
  rw [if_neg (by rw [hl]; decide), if_neg (by rw [hl]; decide), if_pos hl]

theorem processInvLine_rowSfp (st : InvState) (raw l0 v : Str) (vs : List Str)
    (hh : headerMatch (pyStrip raw) = none)
    (hs : (startsEq (pyStrip raw) || st.currentPorts.isEmpty) = false)
    (hsp : splitWs2 (pyStrip raw) = l0 :: v :: vs)
    (hl : stripLabel l0 = "SFP type".toList) :
    processInvLine st raw =
      (setVals (fun val r => { r with sfp := val, media := classifyMedia val })
        st.currentPorts (v :: vs) st.portData).map
        (fun pd => { st with portData := pd }) := by
  simp only [processInvLine]
  rw [hh, if_neg (by rw [hs]; exact Bool.false_ne_true), hsp]
  dsimp only
  rw [if_neg (by rw [hl]; decide), if_neg (by rw [hl]; decide),
    if_neg (by rw [hl]; decide), if_pos hl]

theorem processInvLine_rowOther (st : InvState) (raw l0 v : Str) (vs : List Str)
    (hh : headerMatch (pyStrip raw) = none)
    (hs : (startsEq (pyStrip raw) || st.currentPorts.isEmpty) = false)
    (hsp : splitWs2 (pyStrip raw) = l0 :: v :: vs)
    (h1 : ¬stripLabel l0 = "Type".toList)
    (h2 : ¬stripLabel l0 = "Admin".toList)
    (h3 : ¬stripLabel l0 = "Speed (Mbps)".toList)
    (h4 : ¬stripLabel l0 = "SFP type".toList) :
    processInvLine st raw = Except.ok st := by
  simp only [processInvLine]
  rw [hh, if_neg (by rw [hs]; exact Bool.false_ne_true), hsp]
  dsimp only
  rw [if_neg h1, if_neg h2, if_neg h3, if_neg h4]

theorem exmap_ok {α β : Type} (x : Except Unit α) (f : α → β) (b : β)
    (h : x.map f = Except.ok b) : ∃ a, x = Except.ok a ∧ b = f a := by
  cases x with
  | ok a => exact ⟨a, rfl, (Except.ok.inj h).symm⟩
  | error e => simp [Except.map] at h

theorem invFold_ok :
    ∀ (lines : List Str) (st : InvState),
      (∀ q ∈ st.currentPorts, pmContains st.portData q = true) →
      ∃ st', lines.foldlM processInvLine st = Except.ok st' ∧
        (∀ q ∈ st'.currentPorts, pmContains st'.portData q = true) := by
  intro lines
  induction lines with
  | nil => intro st hInv; exact ⟨st, rfl, hInv⟩
  | cons l ls ih =>
    intro st hInv
    rw [List.foldlM_cons]
    cases hh : headerMatch (pyStrip l) with
    | some g =>
      rw [processInvLine_header st l g hh]
      exact ih _ (fun q hq => insertNew_contains (splitWs2 g) st.portData q (Or.inl hq))
    | none =>
      cases hs : (startsEq (pyStrip l) || st.currentPorts.isEmpty) with
      | true =>
        rw [processInvLine_skip st l hh hs]
        exact ih st hInv
      | false =>
        cases hsp : splitWs2 (pyStrip l) with
        | nil =>
          rw [processInvLine_short st l hh hs (Or.inl hsp)]
          exact ih st hInv
        | cons l0 rest =>
          cases rest with
          | nil =>
            rw [processInvLine_short st l hh hs (Or.inr ⟨l0, hsp⟩)]
            exact ih st hInv
          | cons v vs =>
            by_cases hl1 : stripLabel l0 = "Type".toList
            · rw [processInvLine_rowType st l l0 v vs hh hs hsp hl1]
              obtain ⟨pd', he, hk⟩ := setVals_ok _ st.currentPorts (v :: vs) st.portData hInv
              rw [he]
              exact ih _ (fun q hq => by
                rw [pmContains_eq_of_keys hk q]
                exact hInv q hq)
            · by_cases hl2 : stripLabel l0 = "Admin".toList
              · rw [processInvLine_rowAdmin st l l0 v vs hh hs hsp hl2]
                obtain ⟨pd', he, hk⟩ := setVals_ok _ st.currentPorts (v :: vs) st.portData hInv
                rw [he]
                exact ih _ (fun q hq => by
                  rw [pmContains_eq_of_keys hk q]
                  exact hInv q hq)
              · by_cases hl3 : stripLabel l0 = "Speed (Mbps)".toList
                · rw [processInvLine_rowSpeed st l l0 v vs hh hs hsp hl3]
                  obtain ⟨pd', he, hk⟩ := setVals_ok _ st.currentPorts (v :: vs) st.portData hInv
                  rw [he]
                  exact ih _ (fun q hq => by
                    rw [pmContains_eq_of_keys hk q]
                    exact hInv q hq)
                · by_cases hl4 : stripLabel l0 = "SFP type".toList
                  · rw [processInvLine_rowSfp st l l0 v vs hh hs hsp hl4]
                    obtain ⟨pd', he, hk⟩ := setVals_ok _ st.currentPorts (v :: vs) st.portData hInv
                    rw [he]
                    exact ih _ (fun q hq => by
                      rw [pmContains_eq_of_keys hk q]
                      exact hInv q hq)
                  · rw [processInvLine_rowOther st l l0 v vs hh hs hsp hl1 hl2 hl3 hl4]
                    exact ih st hInv

/-- Claim C8: the three extraction stages of the parser are total — on
every document (any list of lines, however malformed) the composed scan
returns `ok`; in particular the fallible dict accesses of the inventory
scan never raise.  Rows that do not split into a label and a value,
`=`-separator lines, values beyond the port-column count and
unrecognized labels are all skipped by construction of the per-line
functions. -/
theorem c8_no_exceptions : ∀ doc : List Str, ∃ r, parseAll doc = Except.ok r := by
  intro doc
  obtain ⟨st', h, _⟩ :=
    invFold_ok doc { currentPorts := [], portData := [] } (by intro q hq; simp at hq)
  refine ⟨(parseAliases doc, parseStats st'.portData doc), ?_⟩
  unfold parseAll parseInv
  rw [h]
  rfl

theorem setVals_keys_of_ok (upd : Str → PortInfo → PortInfo) :
    ∀ (ports vals : List Str) (pd pd' : PortMap),
      setVals upd ports vals pd = Except.ok pd' →
      pd'.map Prod.fst = pd.map Prod.fst := by
  intro ports
  induction ports with
  | nil =>
    intro vals pd pd' h
    cases vals with
    | nil => exact congrArg (List.map Prod.fst) (Except.ok.inj h).symm
    | cons v vs => exact congrArg (List.map Prod.fst) (Except.ok.inj h).symm
  | cons q qs ih =>
    intro vals pd pd' h
    cases vals with
    | nil => exact congrArg (List.map Prod.fst) (Except.ok.inj h).symm
    | cons v vs =>
      revert h
      show (do
        let pd0 ← pmUpdate pd q (upd v)
        setVals upd qs vs pd0) = Except.ok pd' → _
      unfold pmUpdate
      by_cases hc : pmContains pd q = true
      · rw [if_pos hc]
        intro h
        exact (ih vs _ pd' h).trans (pmUpdateT_keys pd q (upd v))
      · rw [if_neg hc]
        intro h
        exact absurd h (by simp [Bind.bind, Except.bind])

theorem invFold_keys :
    ∀ (lines : List Str) (st st' : InvState),
      lines.foldlM processInvLine st = Except.ok st' →
      ∀ p : Str, p ∈ st'.portData.map Prod.fst →
        p ∈ st.portData.map Prod.fst ∨ p ∈ headerPorts lines := by
  intro lines
  induction lines with
  | nil =>
    intro st st' h p hp
    rw [List.foldlM_nil] at h
    exact Or.inl ((Except.ok.inj h) ▸ hp)
  | cons l ls ih =>
    intro st st' h p hp
    rw [List.foldlM_cons] at h
    have hsplit : ∀ mid : InvState, processInvLine st l = Except.ok mid →
        ls.foldlM processInvLine mid = Except.ok st' →
        (∀ q : Str, q ∈ mid.portData.map Prod.fst →
          q ∈ st.portData.map Prod.fst ∨ q ∈ headerPortsOfLine l) →
        p ∈ st.portData.map Prod.fst ∨ p ∈ headerPorts (l :: ls) := by
      intro mid hml hfold hmid
      rcases ih mid st' hfold p hp with h1 | h1
      · rcases hmid p h1 with h2 | h2
        · exact Or.inl h2
        · right
          show p ∈ headerPortsOfLine l ++ headerPorts ls
          exact List.mem_append.mpr (Or.inl h2)
      · right
        show p ∈ headerPortsOfLine l ++ headerPorts ls
        exact List.mem_append.mpr (Or.inr h1)
    cases hh : headerMatch (pyStrip l) with
    | some g =>
      rw [processInvLine_header st l g hh] at h
      refine hsplit _ (processInvLine_header st l g hh) h ?_
      intro q hq
      rcases insertNew_keys (splitWs2 g) st.portData q hq with h2 | h2
      · exact Or.inl h2
      · right
        unfold headerPortsOfLine
        rw [hh]
        exact h2
    | none =>
      cases hs : (startsEq (pyStrip l) || st.currentPorts.isEmpty) with
      | true =>
        rw [processInvLine_skip st l hh hs] at h
        exact hsplit st (processInvLine_skip st l hh hs) h (fun q hq => Or.inl hq)
      | false =>
        cases hsp : splitWs2 (pyStrip l) with
        | nil =>
          rw [processInvLine_short st l hh hs (Or.inl hsp)] at h
          exact hsplit st (processInvLine_short st l hh hs (Or.inl hsp)) h
            (fun q hq => Or.inl hq)
        | cons l0 rest =>
          cases rest with
          | nil =>
            rw [processInvLine_short st l hh hs (Or.inr ⟨l0, hsp⟩)] at h
            exact hsplit st (processInvLine_short st l hh hs (Or.inr ⟨l0, hsp⟩)) h
              (fun q hq => Or.inl hq)
          | cons v vs =>
            have hrow : ∀ upd : Str → PortInfo → PortInfo,
                processInvLine st l =
                  (setVals upd st.currentPorts (v :: vs) st.portData).map
                    (fun pd => { st with portData := pd }) →
                p ∈ st.portData.map Prod.fst ∨ p ∈ headerPorts (l :: ls) := by
              intro upd hml
              rw [hml] at h
              cases hE : setVals upd st.currentPorts (v :: vs) st.portData with
              | error e =>
                rw [hE] at h
                simp [Except.map, Bind.bind, Except.bind] at h
              | ok pd' =>
                rw [hE] at h
                have hkeys := setVals_keys_of_ok upd st.currentPorts (v :: vs)
                  st.portData pd' hE
                refine hsplit { st with portData := pd' } (by rw [hml, hE]; rfl) h ?_
                intro q hq
                left
                rw [← hkeys]
                exact hq
            by_cases hl1 : stripLabel l0 = "Type".toList
            · exact hrow _ (processInvLine_rowType st l l0 v vs hh hs hsp hl1)
            · by_cases hl2 : stripLabel l0 = "Admin".toList
              · exact hrow _ (processInvLine_rowAdmin st l l0 v vs hh hs hsp hl2)
              · by_cases hl3 : stripLabel l0 = "Speed (Mbps)".toList
                · exact hrow _ (processInvLine_rowSpeed st l l0 v vs hh hs hsp hl3)
                · by_cases hl4 : stripLabel l0 = "SFP type".toList
                  · exact hrow _ (processInvLine_rowSfp st l l0 v vs hh hs hsp hl4)
                  · rw [processInvLine_rowOther st l l0 v vs hh hs hsp hl1 hl2 hl3 hl4] at h
                    exact hsplit st
                      (processInvLine_rowOther st l l0 v vs hh hs hsp hl1 hl2 hl3 hl4) h
                      (fun q hq => Or.inl hq)

theorem processStatsLine_keys (st : StatState) (raw : Str) :
    (processStatsLine st raw).portData.map Prod.fst = st.portData.map Prod.fst := by
  simp only [processStatsLine]
  cases hh : statsHeaderMatch (pyStrip raw) with
  | some g => rfl
  | none =>
    dsimp only
    cases hs : (startsEq (pyStrip raw) || st.currentStatsPorts.isEmpty) with
    | true => rw [if_pos rfl]
    | false =>
      rw [if_neg Bool.false_ne_true]
      cases hsp : splitWs2 (pyStrip raw) with
      | nil => rfl
      | cons l0 rest =>
        cases rest with
        | nil => rfl
        | cons v vs =>
          dsimp only
          by_cases hl1 : stripLabel l0 = "IfInOctetsPerSec".toList
          · rw [if_pos hl1]
            exact setStatsVals_keys _ _ _ _
          · rw [if_neg hl1]
            by_cases hl2 : stripLabel l0 = "IfOutOctetsPerSec".toList
            · rw [if_pos hl2]
              exact setStatsVals_keys _ _ _ _
            · rw [if_neg hl2]

theorem processStatsLine_admin (st : StatState) (raw : Str) (p : Str) :
    (alookup (processStatsLine st raw).portData p).map PortInfo.admin =
      (alookup st.portData p).map PortInfo.admin := by
  simp only [processStatsLine]
  cases hh : statsHeaderMatch (pyStrip raw) with
  | some g => rfl
  | none =>
    dsimp only
    cases hs : (startsEq (pyStrip raw) || st.currentStatsPorts.isEmpty) with
    | true => rw [if_pos rfl]
    | false =>
      rw [if_neg Bool.false_ne_true]
      cases hsp : splitWs2 (pyStrip raw) with
      | nil => rfl
      | cons l0 rest =>
        cases rest with
        | nil => rfl
        | cons v vs =>
          dsimp only
          by_cases hl1 : stripLabel l0 = "IfInOctetsPerSec".toList
          · rw [if_pos hl1]
            exact setStatsVals_admin (fun val r => { r with rxRate := val })
              (fun v r => rfl) _ _ _ _
          · rw [if_neg hl1]
            by_cases hl2 : stripLabel l0 = "IfOutOctetsPerSec".toList
            · rw [if_pos hl2]
              exact setStatsVals_admin (fun val r => { r with txRate := val })
                (fun v r => rfl) _ _ _ _
            · rw [if_neg hl2]

theorem statsFold_keys :
    ∀ (lines : List Str) (st : StatState),
      ((lines.foldl processStatsLine st).portData).map Prod.fst =
        st.portData.map Prod.fst := by
  intro lines
  induction lines with
  | nil => intro st; rfl
  | cons l ls ih =>
    intro st
    rw [List.foldl_cons]
    exact (ih _).trans (processStatsLine_keys st l)

theorem statsFold_admin (p : Str) :
    ∀ (lines : List Str) (st : StatState),
      (alookup ((lines.foldl processStatsLine st).portData) p).map PortInfo.admin =
        (alookup st.portData p).map PortInfo.admin := by
  intro lines
  induction lines with
  | nil => intro st; rfl
  | cons l ls ih =>
    intro st
    rw [List.foldl_cons]
    exact (ih _).trans (processStatsLine_admin st l p)

theorem parseStats_keys (pd : PortMap) (doc : List Str) :
    (parseStats pd doc).map Prod.fst = pd.map Prod.fst :=
  statsFold_keys doc { currentStatsPorts := [], portData := pd }

theorem parseStats_admin (pd : PortMap) (doc : List Str) (p : Str) :
    (alookup (parseStats pd doc) p).map PortInfo.admin =
      (alookup pd p).map PortInfo.admin :=
  statsFold_admin p doc { currentStatsPorts := [], portData := pd }

theorem sortedPorts_mem {pd : PortMap} {p : Str} (h : p ∈ sortedPorts pd) :
    p ∈ pd.map Prod.fst :=
  (List.perm_insertionSort portLe (pd.map Prod.fst)).mem_iff.mp h

theorem rowPorts_sub (fmt : Format) (ss : Bool) (pd : PortMap)
    (al : Str → Option Str) (p : Str)
    (h : p ∈ rowPorts (render fmt ss pd al)) : p ∈ pd.map Prod.fst := by
  cases fmt with
  | json =>
    rcases List.mem_map.mp h with ⟨row, hrow, hport⟩
    rcases List.mem_filterMap.mp hrow with ⟨q, hq, hopt⟩
    cases hl : alookup pd q with
    | none => rw [hl] at hopt; simp at hopt
    | some d =>
      rw [hl] at hopt
      have hrq : row = _ := (Option.some.inj hopt).symm
      have : p = q := by rw [← hport, hrq]
      exact this ▸ sortedPorts_mem hq
  | csv =>
    rcases List.mem_map.mp h with ⟨row, hrow, hport⟩
    rcases List.mem_filterMap.mp hrow with ⟨q, hq, hopt⟩
    cases hl : alookup pd q with
    | none => rw [hl] at hopt; simp at hopt
    | some d =>
      rw [hl] at hopt
      have hrq : row = _ := (Option.some.inj hopt).symm
      have : p = q := by rw [← hport, hrq]
      exact this ▸ sortedPorts_mem hq
  | table =>
    rcases List.mem_map.mp h with ⟨row, hrow, hport⟩
    rcases List.mem_filterMap.mp hrow with ⟨q, hq, hopt⟩
    cases hl : alookup pd q with
    | none => rw [hl] at hopt; simp at hopt
    | some d =>
      rw [hl] at hopt
      have hrq : row = _ := (Option.some.inj hopt).symm
      have : p = q := by rw [← hport, hrq]
      exact this ▸ sortedPorts_mem hq

theorem portDataOf_keys_sub (doc : List Str) (p : Str)
    (h : p ∈ (portDataOf doc).map Prod.fst) : p ∈ headerPorts doc := by
  unfold portDataOf at h
  cases hA : parseAll doc with
  | error e => rw [hA] at h; simp at h
  | ok r =>
    rw [hA] at h
    dsimp only at h
    unfold parseAll at hA
    rcases exmap_ok _ _ _ hA with ⟨st, hI, hr⟩
    rw [hr] at h
    dsimp only at h
    rw [parseStats_keys] at h
    rcases invFold_keys doc { currentPorts := [], portData := [] } st hI p h with h1 | h1
    · simp at h1
    · exact h1

/-- Claim C1: a port identifier appears as a row of a rendered report
(any format) only if it was listed as a column of at least one
parameter-block header line; and the statistics scan never creates a
Port Record — it leaves the key set of `port_data` unchanged, updating
rates only for existing ports.  Consequently alias-only or
statistics-only ports never produce report rows. -/
theorem c1_report_rows_from_headers :
    (∀ (doc : List Str) (fmt : Format) (ss : Bool) (al : Str → Option Str) (p : Str),
      p ∈ rowPorts (render fmt ss (portDataOf doc) al) → p ∈ headerPorts doc) ∧
    ∀ (pd : PortMap) (doc : List Str),
      (parseStats pd doc).map Prod.fst = pd.map Prod.fst := by
  constructor
  · intro doc fmt ss al p h
    exact portDataOf_keys_sub doc p (rowPorts_sub fmt ss (portDataOf doc) al p h)
  · exact parseStats_keys

theorem c1_witness : "1/1/x1".toList ∈ headerPorts demoDoc :=
  c1_report_rows_from_headers.1 demoDoc Format.json true (fun _ => none) _ (by decide)

theorem filterMap_map_congr {α β γ δ : Type} (l : List α) (f : α → Option β)
    (g : α → Option γ) (F : β → δ) (G : γ → δ)
    (h : ∀ a, (f a).map F = (g a).map G) :
    (l.filterMap f).map F = (l.filterMap g).map G := by
  induction l with
  | nil => rfl
  | cons a as ih =>
    rw [List.filterMap_cons, List.filterMap_cons]
    cases hf : f a with
    | none =>
      cases hg : g a with
      | none => exact ih
      | some y =>
        exfalso
        have hfg := h a
        rw [hf, hg] at hfg
        simp at hfg
    | some x =>
      cases hg : g a with
      | none =>
        exfalso
        have hfg := h a
        rw [hf, hg] at hfg
        simp at hfg
      | some y =>
        have hfg := h a
        rw [hf, hg] at hfg
        simp only [Option.map_some'] at hfg
        rw [List.map_cons, List.map_cons, ih, Option.some.inj hfg]

/-- Claim C9: rendering the same parsed data to json, csv and table
yields the same ports in the same order, the same Type/Status/Speed/
Media strings per row, the same underlying (pre-formatting) utilization
values per row, and identical total/enabled/disabled summary counts for
the table and csv summaries.  (Per-format decimal formatting of the
utilization values is display-only and outside the model.) -/
theorem c9_format_equivalence :
    ∀ (pd : PortMap) (al : Str → Option Str),
      (renderJson pd al).map JsonRow.port = (renderCsv pd al).map CsvRow.port ∧
      (renderCsv pd al).map CsvRow.port = (renderTable pd al).map TableRow.port ∧
      (renderJson pd al).map (fun r => (r.rowType, r.status, r.speed, r.media)) =
        (renderCsv pd al).map (fun r => (r.rowType, r.status, r.speed, r.media)) ∧
      (renderCsv pd al).map (fun r => (r.rowType, r.status, r.speed, r.media)) =
        (renderTable pd al).map (fun r => (r.rowType, r.status, r.speed, r.media)) ∧
      (renderJson pd al).map (fun r => (r.rxUtil, r.txUtil)) =
        (renderCsv pd al).map (fun r => (r.rxUtil, r.txUtil)) ∧
      (renderCsv pd al).map (fun r => (r.rxUtil, r.txUtil)) =
        (renderTable pd al).map (fun r => (r.rxUtil, r.txUtil)) ∧
      csvSummary pd = tableSummary pd := by
  intro pd al
  refine ⟨?_, ?_, ?_, ?_, ?_, ?_, rfl⟩
  · exact filterMap_map_congr (sortedPorts pd) _ _ _ _
      (fun q => by cases alookup pd q <;> rfl)
  · exact filterMap_map_congr (sortedPorts pd) _ _ _ _
      (fun q => by cases alookup pd q <;> rfl)
  · exact filterMap_map_congr (sortedPorts pd) _ _ _ _
      (fun q => by cases alookup pd q <;> rfl)
  · exact filterMap_map_congr (sortedPorts pd) _ _ _ _
      (fun q => by cases alookup pd q <;> rfl)
  · exact filterMap_map_congr (sortedPorts pd) _ _ _ _
      (fun q => by cases alookup pd q <;> rfl)
  · exact filterMap_map_congr (sortedPorts pd) _ _ _ _
      (fun q => by cases alookup pd q <;> rfl)

theorem adminTargetsGo_header (cur : List Str) (l : Str) (ls : List Str) (g : Str)
    (hh : headerMatch (pyStrip l) = some g) :
    adminTargetsGo cur (l :: ls) = adminTargetsGo (splitWs2 g) ls := by
  simp only [adminTargetsGo]
  rw [hh]

theorem adminTargetsGo_skip (cur : List Str) (l : Str) (ls : List Str)
    (hh : headerMatch (pyStrip l) = none)
    (hs : (startsEq (pyStrip l) || cur.isEmpty) = true) :
    adminTargetsGo cur (l :: ls) = adminTargetsGo cur ls := by
  simp only [adminTargetsGo]
  rw [hh]
  dsimp only
  rw [if_pos hs]

theorem adminTargetsGo_short (cur : List Str) (l : Str) (ls : List Str)
    (hh : headerMatch (pyStrip l) = none)
    (hs : (startsEq (pyStrip l) || cur.isEmpty) = false)
    (hsp : splitWs2 (pyStrip l) = [] ∨ ∃ x, splitWs2 (pyStrip l) = [x]) :
    adminTargetsGo cur (l :: ls) = adminTargetsGo cur ls := by
  simp only [adminTargetsGo]
  rw [hh]
  dsimp only
  rw [if_neg (by rw [hs]; exact Bool.false_ne_true)]
  rcases hsp with hsp | ⟨x, hsp⟩ <;> rw [hsp]

theorem adminTargetsGo_rowAdmin (cur : List Str) (l l0 v : Str) (ls vs : List Str)
    (hh : headerMatch (pyStrip l) = none)
    (hs : (startsEq (pyStrip l) || cur.isEmpty) = false)
    (hsp : splitWs2 (pyStrip l) = l0 :: v :: vs)
    (hl : stripLabel l0 = "Admin".toList) :
    adminTargetsGo cur (l :: ls) =
      cur.take (v :: vs).length ++ adminTargetsGo cur ls := by
  simp only [adminTargetsGo]
  rw [hh]
  dsimp only
  rw [if_neg (by rw [hs]; exact Bool.false_ne_true), hsp]
  dsimp only
  rw [if_pos hl]

theorem adminTargetsGo_rowOther (cur : List Str) (l l0 v : Str) (ls vs : List Str)
    (hh : headerMatch (pyStrip l) = none)
    (hs : (startsEq (pyStrip l) || cur.isEmpty) = false)
    (hsp : splitWs2 (pyStrip l) = l0 :: v :: vs)
    (hl : ¬stripLabel l0 = "Admin".toList) :
    adminTargetsGo cur (l :: ls) = adminTargetsGo cur ls := by
  simp only [adminTargetsGo]
  rw [hh]
  dsimp only
  rw [if_neg (by rw [hs]; exact Bool.false_ne_true), hsp]
  dsimp only
  rw [if_neg hl]

theorem invFold_admin (p : Str) :
    ∀ (lines : List Str) (st st' : InvState),
      lines.foldlM processInvLine st = Except.ok st' →
      p ∉ adminTargetsGo st.currentPorts lines →
      (∀ r, alookup st.portData p = some r → r.admin = "N/A".toList) →
      (∀ r, alookup st'.portData p = some r → r.admin = "N/A".toList) := by
  intro lines
  induction lines with
  | nil =>
    intro st st' h _ hpre
    rw [List.foldlM_nil] at h
    exact (Except.ok.inj h) ▸ hpre
  | cons l ls ih =>
    intro st st' h htgt hpre
    rw [List.foldlM_cons] at h
    cases hh : headerMatch (pyStrip l) with
    | some g =>
      rw [processInvLine_header st l g hh] at h
      refine ih _ st' h ?_ ?_
      · intro hmem
        exact htgt ((adminTargetsGo_header st.currentPorts l ls g hh) ▸ hmem)
      · intro r hr
        rcases insertNew_lookup (splitWs2 g) st.portData p r hr with h1 | h1
        · exact hpre r h1
        · rw [h1]; rfl
    | none =>
      cases hs : (startsEq (pyStrip l) || st.currentPorts.isEmpty) with
      | true =>
        rw [processInvLine_skip st l hh hs] at h
        refine ih st st' h ?_ hpre
        intro hmem
        exact htgt ((adminTargetsGo_skip st.currentPorts l ls hh hs) ▸ hmem)
      | false =>
        cases hsp : splitWs2 (pyStrip l) with
        | nil =>
          rw [processInvLine_short st l hh hs (Or.inl hsp)] at h
          refine ih st st' h ?_ hpre
          intro hmem
          exact htgt
            ((adminTargetsGo_short st.currentPorts l ls hh hs (Or.inl hsp)) ▸ hmem)
        | cons l0 rest =>
          cases rest with
          | nil =>
            rw [processInvLine_short st l hh hs (Or.inr ⟨l0, hsp⟩)] at h
            refine ih st st' h ?_ hpre
            intro hmem
            exact htgt
              ((adminTargetsGo_short st.currentPorts l ls hh hs (Or.inr ⟨l0, hsp⟩)) ▸ hmem)
          | cons v vs =>
            by_cases hl2 : stripLabel l0 = "Admin".toList
            · rw [processInvLine_rowAdmin st l l0 v vs hh hs hsp hl2] at h
              cases hE : setVals (fun val r => { r with admin := val })
                  st.currentPorts (v :: vs) st.portData with
              | error e =>
                rw [hE] at h
                simp [Except.map, Bind.bind, Except.bind] at h
              | ok pd' =>
                rw [hE] at h
                have htgt2 := htgt ∘
                  (adminTargetsGo_rowAdmin st.currentPorts l l0 v ls vs hh hs hsp hl2 ▸ ·)
                have hnotake : p ∉ st.currentPorts.take (v :: vs).length := by
                  intro hmem
                  exact htgt2 (List.mem_append.mpr (Or.inl hmem))
                have hnorec : p ∉ adminTargetsGo st.currentPorts ls := by
                  intro hmem
                  exact htgt2 (List.mem_append.mpr (Or.inr hmem))
                refine ih { st with portData := pd' } st' h hnorec ?_
                intro r hr
                rw [setVals_lookup_eq _ st.currentPorts (v :: vs) st.portData pd' hE p
                  hnotake] at hr
                exact hpre r hr
            · have hother : ∀ upd : Str → PortInfo → PortInfo,
                  (∀ v0 r, (upd v0 r).admin = r.admin) →
                  processInvLine st l =
                    (setVals upd st.currentPorts (v :: vs) st.portData).map
                      (fun pd => { st with portData := pd }) →
                  (∀ r, alookup st'.portData p = some r → r.admin = "N/A".toList) := by
                intro upd hupd hml
                rw [hml] at h
                cases hE : setVals upd st.currentPorts (v :: vs) st.portData with
                | error e =>
                  rw [hE] at h
                  simp [Except.map, Bind.bind, Except.bind] at h
                | ok pd' =>
                  rw [hE] at h
                  have hnorec : p ∉ adminTargetsGo st.currentPorts ls := by
                    intro hmem
                    exact htgt
                      ((adminTargetsGo_rowOther st.currentPorts l l0 v ls vs hh hs hsp hl2)
                        ▸ hmem)
                  refine ih { st with portData := pd' } st' h hnorec ?_
                  intro r hr
                  have hadm := setVals_admin upd hupd st.currentPorts (v :: vs)
                    st.portData pd' hE p
                  rw [hr] at hadm
                  cases hl0 : alookup st.portData p with
                  | none => rw [hl0] at hadm; simp at hadm
                  | some r0 =>
                    rw [hl0] at hadm
                    simp only [Option.map_some'] at hadm
                    rw [Option.some.inj hadm]
                    exact hpre r0 hl0
              by_cases hl1 : stripLabel l0 = "Type".toList
              · exact hother (fun val r => { r with ptype := val }) (fun v0 r => rfl)
                  (processInvLine_rowType st l l0 v vs hh hs hsp hl1)
              · by_cases hl3 : stripLabel l0 = "Speed (Mbps)".toList
                · exact hother (fun val r => { r with speed := normalizeSpeed val })
                    (fun v0 r => rfl)
                    (processInvLine_rowSpeed st l l0 v vs hh hs hsp hl3)
                · by_cases hl4 : stripLabel l0 = "SFP type".toList
                  · exact hother
                      (fun val r => { r with sfp := val, media := classifyMedia val })
                      (fun v0 r => rfl)
                      (processInvLine_rowSfp st l l0 v vs hh hs hsp hl4)
                  · rw [processInvLine_rowOther st l l0 v vs hh hs hsp hl1 hl2 hl3 hl4]
                      at h
                    refine ih st st' h ?_ hpre
                    intro hmem
                    exact htgt
                      ((adminTargetsGo_rowOther st.currentPorts l l0 v ls vs hh hs hsp hl2)
                        ▸ hmem)

theorem portDataOf_admin (doc : List Str) (p : Str) (h : p ∉ adminTargets doc) :
    ∀ r, alookup (portDataOf doc) p = some r → r.admin = "N/A".toList := by
  intro r hr
  unfold portDataOf at hr
  cases hA : parseAll doc with
  | error e => rw [hA] at hr; simp [alookup] at hr
  | ok rr =>
    rw [hA] at hr
    dsimp only at hr
    unfold parseAll at hA
    rcases exmap_ok _ _ _ hA with ⟨st, hI, hrr⟩
    rw [hrr] at hr
    dsimp only at hr
    have hadm := parseStats_admin st.portData doc p
    rw [hr] at hadm
    cases hl : alookup st.portData p with
    | none => rw [hl] at hadm; simp at hadm
    | some r0 =>
      rw [hl] at hadm
      simp only [Option.map_some'] at hadm
      rw [Option.some.inj hadm]
      exact invFold_admin p doc { currentPorts := [], portData := [] } st hI h
        (fun r1 hr1 => by simp [alookup] at hr1) r0 hl

theorem all_status_Na {R : Type} (keys : List Str) (pd : PortMap)
    (build : Str → PortInfo → R) (portOf statusOf : R → Str)
    (hport : ∀ q d, portOf (build q d) = q)
    (hstatus : ∀ q d, statusOf (build q d) = pyCapitalize d.admin)
    (p : Str) (hadm : ∀ r, alookup pd p = some r → r.admin = "N/A".toList) :
    (((keys.filterMap (fun q => (alookup pd q).map (build q))).filter
        (fun r => portOf r == p)).map statusOf).all (fun s => s == "N/a".toList) = true := by
  rw [List.all_eq_true]
  intro s hs
  rcases List.mem_map.mp hs with ⟨row, hrow, hsrow⟩
  rcases List.mem_filter.mp hrow with ⟨hmem, hbeq⟩
  rcases List.mem_filterMap.mp hmem with ⟨q, hq, hopt⟩
  cases hl : alookup pd q with
  | none => rw [hl] at hopt; simp at hopt
  | some d =>
    rw [hl] at hopt
    have hrw : row = build q d := (Option.some.inj hopt).symm
    have hqp : q = p := by
      rw [hrw, hport] at hbeq
      exact beq_iff_eq.mp hbeq
    subst hqp
    have hadmd := hadm d hl
    rw [← hsrow, hrw, hstatus, hadmd]
    decide

/-- Claim C10: a port that is initialized from a parameter-block header
but never written by an `Admin` row keeps the default admin value
`N/A`, and Python's `str.capitalize` renders it as `N/a` (first letter
upper-cased, the rest lower-cased) in every rendered status field of
all three output formats. -/
theorem c10_default_admin_renders_Na :
    ∀ (doc : List Str) (al : Str → Option Str) (p : Str),
      p ∉ adminTargets doc →
      (jsonStatuses (portDataOf doc) al p).all (fun s => s == "N/a".toList) = true ∧
      (csvStatuses (portDataOf doc) al p).all (fun s => s == "N/a".toList) = true ∧
      (tableStatuses (portDataOf doc) al p).all (fun s => s == "N/a".toList) = true := by
  intro doc al p hp
  have hadm := portDataOf_admin doc p hp
  refine ⟨?_, ?_, ?_⟩
  · exact all_status_Na (sortedPorts (portDataOf doc)) (portDataOf doc) _
      JsonRow.port JsonRow.status (fun q d => rfl) (fun q d => rfl) p hadm
  · exact all_status_Na (sortedPorts (portDataOf doc)) (portDataOf doc) _
      CsvRow.port CsvRow.status (fun q d => rfl) (fun q d => rfl) p hadm
  · exact all_status_Na (sortedPorts (portDataOf doc)) (portDataOf doc) _
      TableRow.port TableRow.status (fun q d => rfl) (fun q d => rfl) p hadm

theorem c10_witness :
    (jsonStatuses (portDataOf demoDoc) (fun _ => none) ("1/1/x1".toList)).all
      (fun s => s == "N/a".toList) = true ∧
    (csvStatuses (portDataOf demoDoc) (fun _ => none) ("1/1/x1".toList)).all
      (fun s => s == "N/a".toList) = true ∧
    (tableStatuses (portDataOf demoDoc) (fun _ => none) ("1/1/x1".toList)).all
      (fun s => s == "N/a".toList) = true :=
  c10_default_admin_renders_Na demoDoc (fun _ => none) ("1/1/x1".toList) (by decide)

end Gigamon
